import Mathlib

/-!
Verification of the guit object store and reference system (a small git
reimplementation).  The Python sources under src/guit are shallowly embedded:
byte strings and text strings become lists of natural numbers (byte values,
resp. code points), the filesystem becomes an explicit state value threaded
through the functions that touch it, Python exceptions become an error type
carried by Except, and unbounded loops take explicit fuel (fuel exhaustion is
reported as an error and never happens on the executions the theorems speak
about).
-/

namespace Guit

/-- Byte strings (Python bytes) and text strings (Python str) are both modelled
as lists of naturals: byte values for bytes, code points for str. -/
abbrev Str := List Nat

/-- Code points of a Lean string literal, used to write embedded constants
readably. -/
def chrs (s : String) : Str := s.toList.map (fun c => c.toNat)

/-- Python error outcomes (exceptions and assertion failures) plus fuel
exhaustion for loops the source lets run unboundedly. -/
inductive PErr where
  | assertFail
  | indexError
  | keyError
  | typeError
  | valueError
  | overflowError
  | unboundLocal
  | attributeError
  | exn
  | fuel
  deriving Repr, DecidableEq

/-- Python bytes.find(c, start): index of the first occurrence, relative to the
front of the list searched. -/
def bfind (c : Nat) : Str → Option Nat
  | [] => none
  | b :: rest => if b = c then some 0 else (bfind c rest).map (· + 1)

/-- Python raw.find(c, start) over the whole byte string, returning -1 when the
byte does not occur at or after start, exactly as Python does. -/
def pyfind (raw : Str) (c : Nat) (start : Nat) : Int :=
  match bfind c (raw.drop start) with
  | some i => (start + i : Nat)
  | none => -1

/-- Python raw[i] for an Int index: negative indices count from the end, out of
range is an IndexError (none). -/
def pyget (raw : Str) (i : Int) : Option Nat :=
  if 0 ≤ i then raw[i.toNat]?
  else if 0 ≤ i + raw.length then raw[(i + raw.length).toNat]? else none

/-- Python slice raw[a:b] for Int bounds: negative bounds count from the end,
bounds are clamped into range. -/
def pyslice (raw : Str) (a b : Int) : Str :=
  let n : Int := raw.length
  let a' : Int := if a < 0 then max 0 (n + a) else min a n
  let b' : Int := if b < 0 then max 0 (n + b) else min b n
  (raw.take b'.toNat).drop a'.toNat

/-- Plain Nat slice raw[a:b] for the places where both bounds are naturals. -/
def sliceN (raw : Str) (a b : Nat) : Str := (raw.take b).drop a

/-- Python int.from_bytes(_, big): big-endian interpretation; the empty slice
gives 0. -/
def beInt (l : Str) : Nat := l.foldl (fun a b => a * 256 + b) 0

/-- Digit recursion for natDec with structural fuel (n itself bounds the digit
count, so the fuel never runs out). -/
def natDecAux : Nat → Nat → Str
  | 0, _ => []
  | f + 1, n => if n < 10 then [48 + n] else natDecAux f (n / 10) ++ [48 + n % 10]

/-- ASCII decimal digits of a natural number (Python str(n).encode()). -/
def natDec (n : Nat) : Str := natDecAux (n + 1) n

/-- Lowercase hex digit character for a value below 16. -/
def hexChar (c : Nat) : Nat := if c < 10 then 48 + c else 87 + c

/-- Python format(n, "0<w>x"): exactly w lowercase hex digits, most significant
first (n is below 16^w at every use site). -/
def toHexPad : Nat → Nat → Str
  | 0, _ => []
  | w + 1, n => toHexPad w (n / 16) ++ [hexChar (n % 16)]

/-- Value of one hex digit character, as accepted by Python int(_, 16). -/
def hexDigit (c : Nat) : Option Nat :=
  if 48 ≤ c ∧ c ≤ 57 then some (c - 48)
  else if 97 ≤ c ∧ c ≤ 102 then some (c - 87)
  else if 65 ≤ c ∧ c ≤ 70 then some (c - 55)
  else none

/-- Python int(s, 16) on a nonempty all-hex string; none models the ValueError
on anything else. -/
def hexToNat : Str → Option Nat
  | [] => none
  | l => l.foldl (fun acc c => match acc, hexDigit c with
      | some a, some d => some (a * 16 + d)
      | _, _ => none) (some 0)

/-- Python n.to_bytes(w, "big"); none models the OverflowError when n does not
fit in w bytes. -/
def toBytesBE (w : Nat) (n : Nat) : Option Str :=
  if n < 256 ^ w then some (go w n) else none
where
  go : Nat → Nat → Str
    | 0, _ => []
    | k + 1, n => go k (n / 256) ++ [n % 256]


/-!  SHA-1 over byte lists, translated from the standard algorithm that
Python hashlib.sha1 implements; object identifiers are its lowercase hex
digest of the framed object form.  -/

/-- Arithmetic modulo 2^32, the word size of SHA-1. -/
def w32 (x : Nat) : Nat := x % 4294967296

def rotl (n x : Nat) : Nat := w32 (x * 2 ^ n + x / 2 ^ (32 - n))

def be32 (x : Nat) : Str := [x / 16777216 % 256, x / 65536 % 256, x / 256 % 256, x % 256]

def be64 (x : Nat) : Str :=
  [x / 2 ^ 56 % 256, x / 2 ^ 48 % 256, x / 2 ^ 40 % 256, x / 2 ^ 32 % 256,
   x / 2 ^ 24 % 256, x / 2 ^ 16 % 256, x / 2 ^ 8 % 256, x % 256]

def sha1pad (msg : Str) : Str :=
  msg ++ [128] ++ List.replicate ((119 - msg.length % 64) % 64) 0 ++ be64 (8 * msg.length)

def words16 : Str → List Nat
  | b0 :: b1 :: b2 :: b3 :: rest => (((b0 * 256 + b1) * 256 + b2) * 256 + b3) :: words16 rest
  | _ => []

def extendW (ws : List Nat) : Nat → List Nat
  | 0 => ws
  | k + 1 =>
    let n := ws.length
    extendW (ws ++ [rotl 1 (Nat.xor (Nat.xor (ws.getD (n - 3) 0) (ws.getD (n - 8) 0))
      (Nat.xor (ws.getD (n - 14) 0) (ws.getD (n - 16) 0)))]) k

structure Sha1St where
  h0 : Nat
  h1 : Nat
  h2 : Nat
  h3 : Nat
  h4 : Nat

def sha1f (i b c d : Nat) : Nat :=
  if i < 20 then Nat.lor (Nat.land b c) (Nat.land (4294967295 - b) d)
  else if i < 40 then Nat.xor (Nat.xor b c) d
  else if i < 60 then Nat.lor (Nat.lor (Nat.land b c) (Nat.land b d)) (Nat.land c d)
  else Nat.xor (Nat.xor b c) d

def sha1k (i : Nat) : Nat :=
  if i < 20 then 1518500249
  else if i < 40 then 1859775393
  else if i < 60 then 2400959708
  else 3395469782

def sha1block (st : Sha1St) (block : Str) : Sha1St :=
  let ws := extendW (words16 block) 64
  let go := fun (t : Nat × Nat × Nat × Nat × Nat) (iw : Nat × Nat) =>
    let (a, b, c, d, e) := t
    let (i, w) := iw
    (w32 (rotl 5 a + sha1f i b c d + e + sha1k i + w), a, rotl 30 b, c, d)
  let (a, b, c, d, e) := ws.enum.foldl go (st.h0, st.h1, st.h2, st.h3, st.h4)
  ⟨w32 (st.h0 + a), w32 (st.h1 + b), w32 (st.h2 + c), w32 (st.h3 + d), w32 (st.h4 + e)⟩

def chunks64 (fuel : Nat) (l : Str) : List Str :=
  match fuel, l with
  | _, [] => []
  | 0, _ => []
  | f + 1, l => l.take 64 :: chunks64 f (l.drop 64)

def sha1 (msg : Str) : Str :=
  let padded := sha1pad msg
  let st := (chunks64 padded.length padded).foldl sha1block
    ⟨1732584193, 4023233417, 2562383102, 271733878, 3285377520⟩
  be32 st.h0 ++ be32 st.h1 ++ be32 st.h2 ++ be32 st.h3 ++ be32 st.h4

def sha1hex (msg : Str) : Str :=
  (sha1 msg).flatMap (fun b => [hexChar (b / 16), hexChar (b % 16)])

/-!  KVLM (key-value list with message), from src/guit/classes.py.  A Python
dict with bytes keys (plus the None key for the message) whose values are
bytes or lists of bytes becomes an insertion-ordered association list. -/

/-- Value slot of the Python KVLM dict: either one byte string or an ordered
list of byte strings (for repeated keys). -/
inductive PyVal where
  | s (v : Str)
  | l (vs : List Str)
  deriving Repr, DecidableEq

/-- Insertion-ordered dict from optional byte-string keys to values; the
message body lives under the none key. -/
abbrev Kvlm := List (Option Str × PyVal)

/-- Python dct[k] lookup returning none when the key is absent. -/
def dctLookup (d : Kvlm) (k : Option Str) : Option PyVal :=
  match d with
  | [] => none
  | (k', v) :: rest => if k' = k then some v else dctLookup rest k

/-- The kvlm_parse key-collision rule: first occurrence stores a single value,
the second promotes to a list, later ones append; a fresh key is inserted at
the end (Python dict insertion order). -/
def dctUpdate (d : Kvlm) (k : Option Str) (v : Str) : Kvlm :=
  match d with
  | [] => [(k, PyVal.s v)]
  | (k', v') :: rest =>
    if k' = k then
      match v' with
      | PyVal.l vs => (k', PyVal.l (vs ++ [v])) :: rest
      | PyVal.s v0 => (k', PyVal.l [v0, v]) :: rest
    else (k', v') :: dctUpdate rest k v

/-- Python dict assignment dct[k] = v: replace in place if present, else insert
at the end. -/
def dctSet (d : Kvlm) (k : Option Str) (v : PyVal) : Kvlm :=
  match d with
  | [] => [(k, v)]
  | (k', v') :: rest => if k' = k then (k', v) :: rest else (k', v') :: dctSet rest k v

/-- Python v.replace(LF, LF SP), the serializer's continuation-line escape:
the pattern is a single byte, so this is a per-byte expansion. -/
def besc : Str → Str
  | [] => []
  | b :: rest => (if b = 10 then [10, 32] else [b]) ++ besc rest

/-- Python v.replace(LF SP, LF), the parser's continuation-line un-escape:
leftmost non-overlapping occurrences of the two-byte pattern, as
bytes.replace scans. -/
def breplace : Str → Str
  | [] => []
  | [b] => [b]
  | b :: b2 :: rest =>
    if b = 10 ∧ b2 = 32 then 10 :: breplace rest
    else b :: breplace (b2 :: rest)

/-- The kvlm_parse value-scanning loop: repeatedly end = raw.find(LF, end+1)
until the byte after it is not a SP; Python indexing out of range is an
IndexError and running past the data forever is fuel exhaustion. -/
def findValEnd (raw : Str) (fuel : Nat) (e : Int) : Except PErr Int :=
  match fuel with
  | 0 => .error .fuel
  | f + 1 =>
    let e2 := pyfind raw 10 (e + 1).toNat
    match pyget raw (e2 + 1) with
    | none => .error .indexError
    | some b => if b ≠ 32 then .ok e2 else findValEnd raw f e2

/-- Translation of kvlm_parse from src/guit/classes.py: scan from start for the
next SP and LF; an LF first (or no SP) means the blank line before the message
(the assert nl == start), otherwise read one key, scan the value to the first
LF not followed by SP, un-escape it, record it and recurse past the value. -/
def kvlm_parse (fuel : Nat) (raw : Str) (start : Nat) (dct : Kvlm) : Except PErr Kvlm :=
  match fuel with
  | 0 => .error .fuel
  | f + 1 =>
    let spc := pyfind raw 32 start
    let nl := pyfind raw 10 start
    if spc < 0 ∨ (0 ≤ nl ∧ nl < spc) then
      if nl = (start : Int) then
        .ok (dctSet dct none (PyVal.s (pyslice raw (start + 1) raw.length)))
      else .error .assertFail
    else
      let key := pyslice raw start spc
      match findValEnd raw (raw.length + 1) spc with
      | .error e => .error e
      | .ok endv =>
        let value := breplace (pyslice raw (spc + 1) endv)
        kvlm_parse f raw (endv + 1).toNat (dctUpdate dct (some key) value)

/-- Entry point of the parser: Python calls kvlm_parse(raw) with start 0 and a
fresh dict; the fuel raw.length + 1 is enough for every terminating run since
each recursive call consumes at least one line. -/
def kvlm_parse_top (raw : Str) : Except PErr Kvlm :=
  kvlm_parse (raw.length + 1) raw 0 []

/-- One serialized header record key SP escaped-value LF. -/
def serLine (k v : Str) : Str := k ++ [32] ++ besc v ++ [10]

/-- The field loop of kvlm_serialize: each key in insertion order, skipping the
message slot, normalizing a single value to a one-element list. -/
def serFields : Kvlm → Str
  | [] => []
  | (none, _) :: rest => serFields rest
  | (some k, PyVal.s v) :: rest => serLine k v ++ serFields rest
  | (some k, PyVal.l vs) :: rest => (vs.map (serLine k)).flatten ++ serFields rest

/-- Translation of kvlm_serialize from src/guit/classes.py: header records in
insertion order, then a blank line and the message.  Python raises KeyError
when the message slot is missing and TypeError when it holds a list (bytes +
list fails). -/
def kvlm_serialize (d : Kvlm) : Except PErr Str :=
  match dctLookup d none with
  | none => .error .keyError
  | some (PyVal.l _) => .error .typeError
  | some (PyVal.s m) => .ok (serFields d ++ [10] ++ m)

/-!  UTF-8 codec: Python str.encode("utf-8") / bytes.decode("utf8"), used by
the tree grammar for paths and by the index reader for entry names. -/

/-- Python str.encode("utf-8") for one code point; surrogates and values past
the Unicode range raise (ValueError stand-in for UnicodeEncodeError). -/
def utf8EncodeChar (c : Nat) : Except PErr Str :=
  if c < 128 then .ok [c]
  else if c < 2048 then .ok [192 + c / 64, 128 + c % 64]
  else if c < 65536 then
    if 55296 ≤ c ∧ c ≤ 57343 then .error .valueError
    else .ok [224 + c / 4096, 128 + c / 64 % 64, 128 + c % 64]
  else if c < 1114112 then
    .ok [240 + c / 262144, 128 + c / 4096 % 64, 128 + c / 64 % 64, 128 + c % 64]
  else .error .valueError

/-- Python str.encode("utf-8") over a whole string. -/
def utf8Encode : Str → Except PErr Str
  | [] => .ok []
  | c :: rest =>
    match utf8EncodeChar c, utf8Encode rest with
    | .ok bs, .ok tail => .ok (bs ++ tail)
    | .error e, _ => .error e
    | _, .error e => .error e

/-- Second byte of a UTF-8 sequence: continuation range check, tightened for
the lead bytes that would otherwise admit overlong or surrogate encodings. -/
def utf8Cont2 (b b1 : Nat) : Bool :=
  if b = 224 then 160 ≤ b1 ∧ b1 ≤ 191
  else if b = 237 then 128 ≤ b1 ∧ b1 ≤ 159
  else if b = 240 then 144 ≤ b1 ∧ b1 ≤ 191
  else if b = 244 then 128 ≤ b1 ∧ b1 ≤ 143
  else 128 ≤ b1 ∧ b1 ≤ 191

/-- Plain continuation byte. -/
def utf8Cont (b : Nat) : Bool := 128 ≤ b ∧ b ≤ 191

/-- Python bytes.decode("utf8"), strict: none models UnicodeDecodeError. -/
def utf8Decode : Str → Option Str
  | [] => some []
  | b :: rest =>
    if b < 128 then (utf8Decode rest).map (b :: ·)
    else
      match rest with
      | [] => none
      | b1 :: rest1 =>
        if 194 ≤ b ∧ b ≤ 223 then
          if utf8Cont b1 then (utf8Decode rest1).map (((b - 192) * 64 + (b1 - 128)) :: ·)
          else none
        else
          match rest1 with
          | [] => none
          | b2 :: rest2 =>
            if 224 ≤ b ∧ b ≤ 239 then
              if utf8Cont2 b b1 ∧ utf8Cont b2 then
                (utf8Decode rest2).map
                  (((b - 224) * 4096 + (b1 - 128) * 64 + (b2 - 128)) :: ·)
              else none
            else
              match rest2 with
              | [] => none
              | b3 :: rest3 =>
                if 240 ≤ b ∧ b ≤ 244 then
                  if utf8Cont2 b b1 ∧ utf8Cont b2 ∧ utf8Cont b3 then
                    (utf8Decode rest3).map
                      (((b - 240) * 262144 + (b1 - 128) * 4096 + (b2 - 128) * 64
                        + (b3 - 128)) :: ·)
                  else none
                else none

/-!  Tree grammar, from src/guit/classes.py: GitTreeLeaf, tree_parse,
tree_leaf_sort_key and tree_serialize. -/

/-- Leaf of a tree object: mode bytes, path string (code points), identifier as
a 40-char lowercase hex string, exactly the fields of GitTreeLeaf. -/
structure GitTreeLeaf where
  mode : Str
  path : Str
  sha : Str
  deriving Repr, DecidableEq

/-- Tree object payload: the items list of GitTree. -/
structure GitTree where
  items : List GitTreeLeaf
  deriving Repr, DecidableEq

/-- Translation of tree_parse_one: mode up to the SP (asserted 5 or 6 bytes
long, left-padded to 6), path up to the NUL (UTF-8 decoded), then 20 raw bytes
of identifier formatted 040x; returns the position after the leaf. -/
def tree_parse_one (raw : Str) (start : Int) : Except PErr (Int × GitTreeLeaf) :=
  let x := pyfind raw 32 start.toNat
  if ¬(5 ≤ x - start ∧ x - start ≤ 6) then .error .assertFail
  else
    let mode := pyslice raw start x
    let mode := if mode.length = 5 then 48 :: mode else mode
    let y := pyfind raw 0 x.toNat
    match utf8Decode (pyslice raw (x + 1) y) with
    | none => .error .valueError
    | some path =>
      let raw_sha := beInt (pyslice raw (y + 1) (y + 21))
      .ok (y + 21, ⟨mode, path, toHexPad 40 raw_sha⟩)

/-- The while loop of tree_parse; the position can fail to advance on garbage
input (Python would then loop), so it takes fuel. -/
def tree_parse_go (fuel : Nat) (raw : Str) (pos : Int) : Except PErr (List GitTreeLeaf) :=
  match fuel with
  | 0 => .error .fuel
  | f + 1 =>
    if pos < (raw.length : Int) then
      match tree_parse_one raw pos with
      | .error e => .error e
      | .ok (pos2, leaf) => (tree_parse_go f raw pos2).map (leaf :: ·)
    else .ok []

/-- Translation of tree_parse: parse leaves from position 0 to the end. -/
def tree_parse (raw : Str) : Except PErr (List GitTreeLeaf) :=
  tree_parse_go (raw.length + 1) raw 0

/-- Translation of tree_leaf_sort_key: the path itself for modes starting with
the ASCII bytes "10", otherwise the path with a trailing slash. -/
def tree_leaf_sort_key (leaf : GitTreeLeaf) : Str :=
  if leaf.mode.take 2 = [49, 48] then leaf.path else leaf.path ++ [47]

/-- Lexicographic comparison of Python strings by code point (the order
list.sort uses on the str sort keys). -/
def keyLe : Str → Str → Bool
  | [], _ => true
  | _ :: _, [] => false
  | x :: xs, y :: ys => if x < y then true else if y < x then false else keyLe xs ys

/-- Comparison of two leaves by their sort keys, the order list.sort uses
under key=tree_leaf_sort_key. -/
def leafR (a b : GitTreeLeaf) : Prop :=
  keyLe (tree_leaf_sort_key a) (tree_leaf_sort_key b) = true

instance : DecidableRel leafR := fun a b =>
  inferInstanceAs (Decidable (keyLe (tree_leaf_sort_key a) (tree_leaf_sort_key b) = true))

/-- Python obj.items.sort(key=tree_leaf_sort_key).  list.sort is a stable sort
and any two stable sorts under the same total preorder agree on every input,
so the stable insertion sort computes exactly the list the source produces. -/
def pysort (l : List GitTreeLeaf) : List GitTreeLeaf := List.insertionSort leafR l

/-- Bytes emitted for one leaf by the tree_serialize loop: mode SP path NUL and
the identifier as 20 big-endian raw bytes (int(sha, 16).to_bytes(20, "big")). -/
def leafBytes (item : GitTreeLeaf) : Except PErr Str :=
  match utf8Encode item.path with
  | .error e => .error e
  | .ok pbytes =>
    match hexToNat item.sha with
    | none => .error .valueError
    | some n =>
      match toBytesBE 20 n with
      | none => .error .overflowError
      | some sb => .ok (item.mode ++ [32] ++ pbytes ++ [0] ++ sb)

/-- The emission loop of tree_serialize over the (already sorted) items. -/
def serLeaves : List GitTreeLeaf → Except PErr Str
  | [] => .ok []
  | item :: rest =>
    match leafBytes item, serLeaves rest with
    | .ok bs, .ok tail => .ok (bs ++ tail)
    | .error e, _ => .error e
    | _, .error e => .error e

/-- Translation of tree_serialize: obj.items.sort(key=tree_leaf_sort_key)
mutates the argument before any byte is emitted, so the result is the updated
tree (first component) together with the emitted bytes. -/
def tree_serialize (obj : GitTree) : GitTree × Except PErr Str :=
  let its := pysort obj.items
  (⟨its⟩, serLeaves its)

/-!  Filesystem model and the path service of src/guit/utils.py.  All paths
are taken relative to the metadata directory gitdir; a path is the joined
string os.path.join produces (components separated by the slash byte), with
the empty string denoting gitdir itself. -/

/-- Joined relative path of a component list (os.path.join below gitdir). -/
def pjoin : List Str → Str
  | [] => []
  | [c] => c
  | c :: rest => c ++ [47] ++ pjoin rest

/-- Filesystem state below gitdir: the set of existing directories (the empty
path is gitdir itself) and the files with their byte contents. -/
structure FS where
  dirs : List Str
  files : List (Str × Str)
  deriving Repr, DecidableEq

/-- Directory existence. -/
def isDir (fs : FS) (p : Str) : Bool := fs.dirs.contains p

/-- File content lookup. -/
def fileGet (fs : FS) (p : Str) : Option Str :=
  match fs.files.find? (fun e => e.1 = p) with
  | some e => some e.2
  | none => none

/-- File existence (os.path.isfile). -/
def isFile (fs : FS) (p : Str) : Bool := (fileGet fs p).isSome

/-- Writing a file (open(path, "w")/("wb") plus write): replaces the content if
the file exists, creates it otherwise. -/
def fileSet (fs : FS) (p c : Str) : FS :=
  if isFile fs p then
    { fs with files := fs.files.map (fun e => if e.1 = p then (p, c) else e) }
  else { fs with files := fs.files ++ [(p, c)] }

/-- Python os.makedirs: create the directory together with every missing
ancestor (gitdir included). -/
def mkdirs (fs : FS) (comps : List Str) : FS :=
  { fs with
    dirs := fs.dirs ++
      (((List.range (comps.length + 1)).map (fun i => pjoin (comps.take i))).filter
        (fun p => ¬ fs.dirs.contains p)) }

/-- Translation of repo_dir from src/guit/utils.py: return the path when it is
an existing directory, raise when it exists as something else, create it under
mkdir, and otherwise return None (modelled as the none component).  The
possibly-updated filesystem is threaded through. -/
def repo_dir (fs : FS) (comps : List Str) (mkdir : Bool) : Except PErr (Option Str × FS) :=
  let p := pjoin comps
  if isDir fs p then .ok (some p, fs)
  else if isFile fs p then .error .exn
  else if mkdir then .ok (some p, mkdirs fs comps)
  else .ok (none, fs)

/-- Translation of repo_file from src/guit/utils.py: ensure the parent
directory under the repo_dir rules and return the joined file path; when the
parent is absent the Python function falls through and returns None. -/
def repo_file (fs : FS) (comps : List Str) (mkdir : Bool) : Except PErr (Option Str × FS) :=
  match repo_dir fs comps.dropLast mkdir with
  | .error e => .error e
  | .ok (some _, fs2) => .ok (some (pjoin comps), fs2)
  | .ok (none, fs2) => .ok (none, fs2)

/-!  References, from src/guit/ref.py. -/

/-- Translation of ref_resolve from src/guit/ref.py.  repo_file is consulted
for gitdir/ref (raising TypeError via os.path.isfile(None) when gitdir itself
is missing); a missing file yields the silent absence None; otherwise the last
character is dropped and an indirect reference (content starting with the
five bytes of the ref prefix after the trim) recurses on its target.  The fuel
bounds the indirection depth; cyclic chains exhaust it (Python would exhaust
the recursion limit). -/
def ref_resolve (fuel : Nat) (fs : FS) (ref : Str) : Except PErr (Option Str) :=
  match fuel with
  | 0 => .error .fuel
  | f + 1 =>
    match repo_file fs [ref] false with
    | .error e => .error e
    | .ok (none, _) => .error .typeError
    | .ok (some path, _) =>
      match fileGet fs path with
      | none => .ok none
      | some content =>
        let data := content.dropLast
        if data.take 5 = chrs ("ref: ") then ref_resolve f fs (data.drop 5)
        else .ok (some data)

/-!  Repository creation, from src/guit/create.py. -/

/-- Translation of repo_default_config: a core section holding
repositoryformatversion 0, filemode false, bare false, in that order. -/
def repo_default_config : List (Str × List (Str × Str)) :=
  [(chrs ("core"),
    [(chrs ("repositoryformatversion"), chrs ("0")),
     (chrs ("filemode"), chrs ("false")),
     (chrs ("bare"), chrs ("false"))])]

/-- Python configparser.ConfigParser.write: every section as a bracketed header
line, each option as key SP = SP value, and a blank line closing the section. -/
def configWrite (cfg : List (Str × List (Str × Str))) : Str :=
  cfg.flatMap (fun sec =>
    [91] ++ sec.1 ++ [93, 10] ++
    sec.2.flatMap (fun kv => kv.1 ++ chrs (" = ") ++ kv.2 ++ [10]) ++ [10])

/-- Translation of create_git_structure from src/guit/create.py: create the
four directories (asserting each call returned a path), then write the
description, HEAD and config files through repo_file. -/
def create_git_structure (fs : FS) : Except PErr FS :=
  match repo_dir fs [chrs ("branches")] true with
  | .error e => .error e
  | .ok (none, _) => .error .assertFail
  | .ok (some _, fs1) =>
    match repo_dir fs1 [chrs ("objects")] true with
    | .error e => .error e
    | .ok (none, _) => .error .assertFail
    | .ok (some _, fs2) =>
      match repo_dir fs2 [chrs ("refs"), chrs ("tags")] true with
      | .error e => .error e
      | .ok (none, _) => .error .assertFail
      | .ok (some _, fs3) =>
        match repo_dir fs3 [chrs ("refs"), chrs ("heads")] true with
        | .error e => .error e
        | .ok (none, _) => .error .assertFail
        | .ok (some _, fs4) =>
          match repo_file fs4 [chrs ("description")] false with
          | .error e => .error e
          | .ok (none, _) => .error .typeError
          | .ok (some p5, fs5) =>
            let fs5 := fileSet fs5 p5
              (chrs ("Unnamed repository; edit this file to name the repository.") ++ [10])
            match repo_file fs5 [chrs ("HEAD")] false with
            | .error e => .error e
            | .ok (none, _) => .error .typeError
            | .ok (some p6, fs6) =>
              let fs6 := fileSet fs6 p6 (chrs ("ref: refs/heads/master") ++ [10])
              match repo_file fs6 [chrs ("config")] false with
              | .error e => .error e
              | .ok (none, _) => .error .typeError
              | .ok (some p7, fs7) =>
                .ok (fileSet fs7 p7 (configWrite repo_default_config))

/-!  Object codec and store, from src/guit/io.py and the object classes of
src/guit/classes.py. -/

/-- Tagged object value: the four GitObject subclasses with their payloads
(blobdata, kvlm, items). -/
inductive GitObj where
  | blob (blobdata : Str)
  | commit (kvlm : Kvlm)
  | tree (items : List GitTreeLeaf)
  | tag (kvlm : Kvlm)
  deriving Repr, DecidableEq

/-- The fmt class attribute of each object kind. -/
def objFmt : GitObj → Str
  | .blob _ => chrs ("blob")
  | .commit _ => chrs ("commit")
  | .tree _ => chrs ("tree")
  | .tag _ => chrs ("tag")

/-- The kind-specific serialize methods: blobdata for blobs, kvlm_serialize
for commits and tags, the byte component of tree_serialize for trees. -/
def objSerialize : GitObj → Except PErr Str
  | .blob d => .ok d
  | .commit k => kvlm_serialize k
  | .tag k => kvlm_serialize k
  | .tree t => (tree_serialize ⟨t⟩).2

/-- Compression is modelled as the identity codec: no claim under verification
inspects compressed bytes, and decompress after compress giving the original
back is the only property of zlib the embedded code relies on. -/
def zlibCompress (b : Str) : Str := b

/-- Inverse of the modelled compression. -/
def zlibDecompress (b : Str) : Str := b

/-- Python find with a possibly negative start (a negative start counts from
the end, clamped at 0), needed where one find feeds the next. -/
def pyfindI (raw : Str) (c : Nat) (start : Int) : Int :=
  pyfind raw c (if start < 0 then (max 0 (start + raw.length)).toNat else start.toNat)

/-- Python whitespace as stripped by int(). -/
def isPySpace (c : Nat) : Bool := c = 32 ∨ c = 9 ∨ c = 10 ∨ c = 13 ∨ c = 11 ∨ c = 12

/-- Nonempty all-decimal digit string to its value. -/
def digitsToNat (l : Str) : Option Nat :=
  match l with
  | [] => none
  | _ =>
    if l.all (fun c => 48 ≤ c ∧ c ≤ 57) then
      some (l.foldl (fun a c => a * 10 + (c - 48)) 0)
    else none

/-- Python int(s.decode("ascii")): the bytes must be ASCII, surrounding
whitespace is stripped, an optional sign precedes the digits; anything else
raises (ValueError). -/
def pyIntDec (s : Str) : Except PErr Int :=
  if ¬ s.all (· < 128) then .error .valueError
  else
    let t := ((s.dropWhile isPySpace).reverse.dropWhile isPySpace).reverse
    match t with
    | 45 :: ds =>
      match digitsToNat ds with
      | some n => .ok (-(n : Int))
      | none => .error .valueError
    | 43 :: ds =>
      match digitsToNat ds with
      | some n => .ok (n : Int)
      | none => .error .valueError
    | ds =>
      match digitsToNat ds with
      | some n => .ok (n : Int)
      | none => .error .valueError

/-- Translation of object_read from src/guit/io.py: build the object path with
repo_file (a missing fan-out directory makes repo_file produce None, on which
os.path.isfile raises TypeError), return None silently when the file is
absent, otherwise decompress, split kind and declared size at the first SP and
NUL, check the size against the payload length (raise on mismatch), and
dispatch on the kind (raise on an unknown one). -/
def object_read (fs : FS) (sha : Str) : Except PErr (Option GitObj) :=
  match repo_file fs [chrs ("objects"), sha.take 2, sha.drop 2] false with
  | .error e => .error e
  | .ok (none, _) => .error .typeError
  | .ok (some path, _) =>
    match fileGet fs path with
    | none => .ok none
    | some stored =>
      let raw := zlibDecompress stored
      let x := pyfind raw 32 0
      let fmt := pyslice raw 0 x
      let y := pyfindI raw 0 x
      match pyIntDec (pyslice raw x y) with
      | .error e => .error e
      | .ok size =>
        if size ≠ (raw.length : Int) - y - 1 then .error .exn
        else
          let payload := pyslice raw (y + 1) raw.length
          if fmt = chrs ("commit") then
            (kvlm_parse_top payload).map (fun k => some (GitObj.commit k))
          else if fmt = chrs ("tree") then
            (tree_parse payload).map (fun t => some (GitObj.tree t))
          else if fmt = chrs ("tag") then
            (kvlm_parse_top payload).map (fun k => some (GitObj.tag k))
          else if fmt = chrs ("blob") then .ok (some (GitObj.blob payload))
          else .error .exn

/-- Translation of object_write from src/guit/io.py: serialize, frame with
kind SP decimal-length NUL, hash the framed form, and if a repository is given
place the compressed bytes at objects/&lt;sha[0:2]&gt;/&lt;sha[2:]&gt; (creating the
directory, skipping the write when the path already exists). -/
def object_write (obj : GitObj) (repo : Option FS) : Except PErr (Str × Option FS) :=
  match objSerialize obj with
  | .error e => .error e
  | .ok data =>
    let result := objFmt obj ++ [32] ++ natDec data.length ++ [0] ++ data
    let sha := sha1hex result
    match repo with
    | none => .ok (sha, none)
    | some fs =>
      match repo_file fs [chrs ("objects"), sha.take 2, sha.drop 2] true with
      | .error e => .error e
      | .ok (none, _) => .error .typeError
      | .ok (some path, fs2) =>
        if isFile fs2 path ∨ isDir fs2 path then .ok (sha, some fs2)
        else .ok (sha, some (fileSet fs2 path (zlibCompress result)))

/-- Translation of hash_object from src/guit/io.py with the file read
abstracted to its byte content: construct the object of the requested kind
from the data (running the kind's deserializer) and write it, against the
repository state when the write flag is set. -/
def hash_object (fs : FS) (type : Str) (write : Bool) (data : Str) :
    Except PErr (Str × Option FS) :=
  let repo := if write then some fs else none
  if type = chrs ("commit") then
    match kvlm_parse_top data with
    | .error e => .error e
    | .ok k => object_write (GitObj.commit k) repo
  else if type = chrs ("tree") then
    match tree_parse data with
    | .error e => .error e
    | .ok t => object_write (GitObj.tree t) repo
  else if type = chrs ("tag") then
    match kvlm_parse_top data with
    | .error e => .error e
    | .ok k => object_write (GitObj.tag k) repo
  else if type = chrs ("blob") then object_write (GitObj.blob data) repo
  else .error .exn

/-!  Name resolution, from src/guit/io.py. -/

/-- Immediate child name of directory p contributed by the existing path
entry, if entry lies directly below p. -/
def childName (p entry : Str) : Option Str :=
  if p = [] then
    if entry ≠ [] ∧ ¬ entry.contains 47 then some entry else none
  else if entry.take (p.length + 1) = p ++ [47] then
    let rest := entry.drop (p.length + 1)
    if rest ≠ [] ∧ ¬ rest.contains 47 then some rest else none
  else none

/-- Python os.listdir: the immediate children of a directory.  os.listdir
returns names in unspecified order; the model lists file children then
directory children in insertion order (only membership matters to callers). -/
def listdir (fs : FS) (p : Str) : List Str :=
  ((fs.files.map (fun e => e.1)) ++ fs.dirs).filterMap (childName p)

/-- Match against the short-or-full hash pattern of object_resolve. -/
def hashREMatch (name : Str) : Bool :=
  4 ≤ name.length ∧ name.length ≤ 40 ∧
    name.all (fun c => (48 ≤ c ∧ c ≤ 57) ∨ (65 ≤ c ∧ c ≤ 70) ∨ (97 ≤ c ∧ c ≤ 102))

/-- Python str.lower on one ASCII character. -/
def lowerChar (c : Nat) : Nat := if 65 ≤ c ∧ c ≤ 90 then c + 32 else c

/-- Python str.startswith. -/
def startswith (s pre : Str) : Bool := s.take pre.length = pre

/-- Translation of object_resolve from src/guit/io.py: None for an empty name,
the resolved HEAD alone for HEAD (possibly the Python None, hence the Option
elements), otherwise hash-prefix matches from the object fan-out directory
followed by the tag and then the branch of that name when they resolve to a
nonempty identifier. -/
def object_resolve (fs : FS) (name : Str) : Except PErr (Option (List (Option Str))) :=
  if name = [] then .ok none
  else if name = chrs ("HEAD") then
    match ref_resolve (fs.files.length + 1) fs (chrs ("HEAD")) with
    | .error e => .error e
    | .ok r => .ok (some [r])
  else
    let hashCands : Except PErr (List (Option Str)) :=
      if hashREMatch name then
        let nm := name.map lowerChar
        let prefx := nm.take 2
        match repo_dir fs [chrs ("objects"), prefx] false with
        | .error e => .error e
        | .ok (some p, _) =>
          let rem := nm.drop 2
          .ok ((listdir fs p).filterMap
            (fun f => if startswith f rem then some (some (prefx ++ f)) else none))
        | .ok (none, _) => .ok []
      else .ok []
    match hashCands with
    | .error e => .error e
    | .ok cands =>
      match ref_resolve (fs.files.length + 1) fs (chrs ("refs/tags/") ++ name) with
      | .error e => .error e
      | .ok tagSha =>
        let cands := match tagSha with
          | some s => if s ≠ [] then cands ++ [some s] else cands
          | none => cands
        match ref_resolve (fs.files.length + 1) fs (chrs ("refs/heads/") ++ name) with
        | .error e => .error e
        | .ok brSha =>
          let cands := match brSha with
            | some s => if s ≠ [] then cands ++ [some s] else cands
            | none => cands
          .ok (some cands)

/-- Translation of object_find from src/guit/io.py.  After sha_list =
object_resolve(...), the source tests the variable sha, which is only bound
further down the function; Python raises UnboundLocalError the moment that
test runs, whatever the candidates were, so every call that gets past
object_resolve fails with unboundLocal and the rest of the function is dead
code. -/
def object_find (fs : FS) (name : Str) (fmt : Option Str) (follow : Bool) :
    Except PErr Str :=
  match object_resolve fs name with
  | .error e => .error e
  | .ok _ => .error .unboundLocal

/-- Python obj.kvlm[key].decode("ascii"): KeyError when absent, AttributeError
when the slot holds a list (lists have no decode), ValueError for non-ASCII. -/
def kvGetAscii (k : Kvlm) (key : Str) : Except PErr Str :=
  match dctLookup k (some key) with
  | none => .error .keyError
  | some (PyVal.l _) => .error .attributeError
  | some (PyVal.s v) => if v.all (· < 128) then .ok v else .error .valueError

/-- The kind-following while loop of object_find (src/guit/io.py lines
428-443), stated over its own inputs: return the identifier on a kind match,
None when following is disabled, follow a tag's object header always and a
commit's tree header when a tree is wanted, and None otherwise.  In the
current source this loop is unreachable (object_find raises UnboundLocalError
first). -/
def object_find_follow (fuel : Nat) (fs : FS) (sha : Str) (fmt : Str) (follow : Bool) :
    Except PErr (Option Str) :=
  match fuel with
  | 0 => .error .fuel
  | f + 1 =>
    match object_read fs sha with
    | .error e => .error e
    | .ok none => .error .attributeError
    | .ok (some obj) =>
      if objFmt obj = fmt then .ok (some sha)
      else if ¬ follow then .ok none
      else
        match obj with
        | GitObj.tag k =>
          match kvGetAscii k (chrs ("object")) with
          | .error e => .error e
          | .ok sha2 => object_find_follow f fs sha2 fmt follow
        | GitObj.commit k =>
          if fmt = chrs ("tree") then
            match kvGetAscii k (chrs ("tree")) with
            | .error e => .error e
            | .ok sha2 => object_find_follow f fs sha2 fmt follow
          else .ok none
        | _ => .ok none

/-!  Index reader, from src/guit/io.py. -/

/-- One staged file record, the fields of GitIndexEntry. -/
structure GitIndexEntry where
  ctime : Nat × Nat
  mtime : Nat × Nat
  dev : Nat
  ino : Nat
  mode_type : Nat
  mode_perms : Nat
  uid : Nat
  gid : Nat
  fsize : Nat
  sha : Str
  flag_assume_valid : Bool
  flag_stage : Nat
  name : Str
  deriving Repr, DecidableEq

/-- The index: version (2 by default, as GitIndex()) and entries. -/
structure GitIndex where
  version : Nat
  entries : List GitIndexEntry
  deriving Repr, DecidableEq

/-- Loop body of index_read for one entry at offset idx of the content after
the header: the 62 fixed bytes with the three asserts of the source (reserved
bytes zero, mode type in the closed set, extended flag clear), then the name
(asserting the NUL after a short name, scanning for the NUL after a 0xFFF
one), then 8-byte alignment (8 * ceil(idx / 8); the float ceil is exact at
these sizes). -/
def parseEntry (content : Str) (idx : Nat) : Except PErr (GitIndexEntry × Nat) :=
  let ctime_s := beInt (sliceN content idx (idx + 4))
  let ctime_ns := beInt (sliceN content (idx + 4) (idx + 8))
  let mtime_s := beInt (sliceN content (idx + 8) (idx + 12))
  let mtime_ns := beInt (sliceN content (idx + 12) (idx + 16))
  let dev := beInt (sliceN content (idx + 16) (idx + 20))
  let ino := beInt (sliceN content (idx + 20) (idx + 24))
  let unused := beInt (sliceN content (idx + 24) (idx + 26))
  if unused ≠ 0 then .error .assertFail
  else
    let mode := beInt (sliceN content (idx + 26) (idx + 28))
    let mode_type := mode >>> 12
    if ¬ (mode_type = 8 ∨ mode_type = 10 ∨ mode_type = 14) then .error .assertFail
    else
      let mode_perms := Nat.land mode 511
      let uid := beInt (sliceN content (idx + 28) (idx + 32))
      let gid := beInt (sliceN content (idx + 32) (idx + 36))
      let fsize := beInt (sliceN content (idx + 36) (idx + 40))
      let sha := toHexPad 40 (beInt (sliceN content (idx + 40) (idx + 60)))
      let flags := beInt (sliceN content (idx + 60) (idx + 62))
      let flag_assume_valid := Nat.land flags 32768 ≠ 0
      let flag_extended := Nat.land flags 16384 ≠ 0
      if flag_extended then .error .assertFail
      else
        let flag_stage := Nat.land flags 12288
        let name_length := Nat.land flags 4095
        let idx2 := idx + 62
        let fin : Str → Nat → Except PErr (GitIndexEntry × Nat) := fun raw_name idxAfter =>
          match utf8Decode raw_name with
          | none => .error .valueError
          | some name =>
            .ok (⟨(ctime_s, ctime_ns), (mtime_s, mtime_ns), dev, ino, mode_type,
                  mode_perms, uid, gid, fsize, sha, flag_assume_valid, flag_stage,
                  name⟩,
                 8 * ((idxAfter + 7) / 8))
        if name_length < 4095 then
          match pyget content ((idx2 + name_length : Nat) : Int) with
          | none => .error .indexError
          | some b =>
            if b ≠ 0 then .error .assertFail
            else fin (sliceN content idx2 (idx2 + name_length)) (idx2 + name_length + 1)
        else
          let null_idx := pyfind content 0 (idx2 + 4095)
          fin (pyslice content (idx2 : Nat) null_idx) (null_idx + 1).toNat

/-- The entry loop of index_read: count entries in order, threading the
offset. -/
def readEntries (content : Str) : Nat → Nat → Except PErr (List GitIndexEntry)
  | _, 0 => .ok []
  | idx, n + 1 =>
    match parseEntry content idx with
    | .error e => .error e
    | .ok (e, idx2) => (readEntries content idx2 n).map (e :: ·)

/-- Translation of the parsing part of index_read from src/guit/io.py: the
12-byte header with the DIRC magic and version-2 asserts, then the entries;
bytes after the counted entries (extensions, checksum) are ignored. -/
def index_read_raw (raw : Str) : Except PErr GitIndex :=
  let header := raw.take 12
  let signature := header.take 4
  if signature ≠ chrs ("DIRC") then .error .assertFail
  else
    let version := beInt (sliceN header 4 8)
    if version ≠ 2 then .error .assertFail
    else
      let count := beInt (sliceN header 8 12)
      (readEntries (raw.drop 12) 0 count).map (fun es => ⟨version, es⟩)

/-- Translation of index_read over the filesystem: a missing index file means
a fresh GitIndex (version 2, no entries). -/
def index_read (fs : FS) : Except PErr GitIndex :=
  match repo_file fs [chrs ("index")] false with
  | .error e => .error e
  | .ok (none, _) => .error .typeError
  | .ok (some p, _) =>
    match fileGet fs p with
    | none => .ok ⟨2, []⟩
    | some raw => index_read_raw raw

/-!  Decidability instances and well-formedness predicates used by the
theorems below. -/

instance {ε α : Type _} [DecidableEq ε] [DecidableEq α] : DecidableEq (Except ε α) :=
  fun x y =>
  match x, y with
  | .ok a, .ok b =>
    if h : a = b then .isTrue (congrArg _ h) else .isFalse (fun hh => h (Except.ok.inj hh))
  | .error a, .error b =>
    if h : a = b then .isTrue (congrArg _ h) else .isFalse (fun hh => h (Except.error.inj hh))
  | .ok _, .error _ => .isFalse (fun hh => Except.noConfusion hh)
  | .error _, .ok _ => .isFalse (fun hh => Except.noConfusion hh)

/-- Well-formed KVLM key: nonempty, free of SP and LF, so one header line
holds exactly one key. -/
def WfKey (k : Str) : Prop := k ≠ [] ∧ 32 ∉ k ∧ 10 ∉ k

instance : DecidablePred WfKey := fun k =>
  inferInstanceAs (Decidable (k ≠ [] ∧ 32 ∉ k ∧ 10 ∉ k))

/-- Well-formed header pair: a present (some) well-formed key, and a list
value only for genuine repetition (two or more entries), since the parser
never produces a one-element list. -/
def WfPair : Option Str × PyVal → Prop
  | (none, _) => False
  | (some k, PyVal.s _) => WfKey k
  | (some k, PyVal.l vs) => WfKey k ∧ 2 ≤ vs.length

instance : DecidablePred WfPair := fun p =>
  match p with
  | (none, _) => .isFalse (fun h => h)
  | (some k, PyVal.s _) => inferInstanceAs (Decidable (WfKey k))
  | (some k, PyVal.l vs) => inferInstanceAs (Decidable (WfKey k ∧ 2 ≤ vs.length))

/-- Well-formed KVLM document: header pairs with distinct well-formed keys
followed by the message slot, the shape kvlm_parse itself produces and the
shape the specification's data model describes. -/
def KvlmWF (x : Kvlm) : Prop :=
  ∃ kv msg, x = kv ++ [(none, PyVal.s msg)]
    ∧ (∀ p ∈ kv, WfPair p)
    ∧ (kv.map Prod.fst).Nodup

/-- Flattening of a document into its serialized header records, one (key,
value) per physical line. -/
def fieldLines : Kvlm → List (Str × Str)
  | [] => []
  | (none, _) :: rest => fieldLines rest
  | (some k, PyVal.s v) :: rest => (k, v) :: fieldLines rest
  | (some k, PyVal.l vs) :: rest => vs.map (fun v => (k, v)) ++ fieldLines rest

/-- Bytes of a list of header records. -/
def linesBytes (ls : List (Str × Str)) : Str :=
  (ls.map (fun p => serLine p.1 p.2)).flatten

/-- A tree leaf the serializer can emit: encodable path and a hex identifier
fitting in 20 bytes. -/
def wfLeaf (l : GitTreeLeaf) : Bool :=
  (utf8Encode l.path).isOk ∧ (hexToNat l.sha).isSome ∧ (hexToNat l.sha).getD 0 < 256 ^ 20

/-- Total projection of a leaf's encoded path (meaningful under wfLeaf). -/
def pathBytes (l : GitTreeLeaf) : Str :=
  match utf8Encode l.path with
  | .ok pb => pb
  | .error _ => []

/-- Total projection of a leaf's 20 raw identifier bytes (meaningful under
wfLeaf). -/
def shaBytes (l : GitTreeLeaf) : Str :=
  match hexToNat l.sha with
  | some n => (toBytesBE 20 n).getD []
  | none => []

/-- A chain of n indirect references starting at r whose terminal file is
missing: the broken-indirection shape of the specification. -/
def RefChain (fs : FS) : Nat → Str → Prop
  | 0, r => fileGet fs r = none
  | n + 1, r => ∃ t, fileGet fs r = some (chrs ("ref: ") ++ t ++ [10]) ∧ RefChain fs n t

/-!  Concrete fixtures for counterexamples and witnesses. -/

/-- Repository with HEAD indirecting to an existing master branch holding one
full identifier: object_resolve finds exactly one candidate here. -/
def fsOneCand : FS :=
  ⟨[[]],
   [(chrs ("HEAD"), chrs ("ref: refs/heads/master") ++ [10]),
    (chrs ("refs/heads/master"),
     chrs ("1111111111111111111111111111111111111111") ++ [10])]⟩

/-- Freshly initialized repository shape: HEAD indirects to a master branch
that does not exist yet (the legitimate broken chain of the spec). -/
def fsChainHead : FS :=
  ⟨[[]], [(chrs ("HEAD"), chrs ("ref: refs/heads/master") ++ [10])]⟩

/-- Repository holding a single stored blob object (empty payload) under the
identifier starting aa, for exercising the kind-following loop. -/
def fsBlobStore : FS :=
  ⟨[[], chrs ("objects"), chrs ("objects/aa")],
   [(chrs ("objects/aa/aaaaaaaaaaaaaaaaaaaaaaaaaaaaaaaaaaaaaa"),
     chrs ("blob 0") ++ [0])]⟩

/-- The identifier of the stored blob of fsBlobStore. -/
def shaBlob : Str := chrs ("aaaaaaaaaaaaaaaaaaaaaaaaaaaaaaaaaaaaaaaa")

/-- Tree leaf: subtree named foo. -/
def leafTreeFoo : GitTreeLeaf :=
  ⟨chrs ("040000"), chrs ("foo"), chrs ("1111111111111111111111111111111111111111")⟩

/-- Tree leaf: regular file named foo.c. -/
def leafFileFooC : GitTreeLeaf :=
  ⟨chrs ("100644"), chrs ("foo.c"), chrs ("2222222222222222222222222222222222222222")⟩

/-- Tree leaf: regular file named foo. -/
def leafFileFoo : GitTreeLeaf :=
  ⟨chrs ("100644"), chrs ("foo"), chrs ("3333333333333333333333333333333333333333")⟩

/-- Concrete well-formed KVLM document with a repeated key and a value holding
an embedded newline, for the round-trip witness. -/
def kvlmSample : Kvlm :=
  [(some (chrs ("tree")), PyVal.s (chrs ("abc"))),
   (some (chrs ("parent")), PyVal.l [chrs ("p1"), chrs ("p2")]),
   (some (chrs ("author")), PyVal.s (chrs ("A B") ++ [10] ++ chrs ("x"))),
   (none, PyVal.s (chrs ("hello") ++ [10, 10] ++ chrs ("world")))]

/-- Header pairs of kvlmSample. -/
def kvlmSampleKv : Kvlm :=
  [(some (chrs ("tree")), PyVal.s (chrs ("abc"))),
   (some (chrs ("parent")), PyVal.l [chrs ("p1"), chrs ("p2")]),
   (some (chrs ("author")), PyVal.s (chrs ("A B") ++ [10] ++ chrs ("x")))]

/-- Message of kvlmSample. -/
def kvlmSampleMsg : Str := chrs ("hello") ++ [10, 10] ++ chrs ("world")

/-!  Lemmas about the sort-key order. -/

set_option maxRecDepth 1000000

set_option maxHeartbeats 2000000

theorem keyLe_total : ∀ a b : Str, keyLe a b = true ∨ keyLe b a = true
  | [], _ => Or.inl rfl
  | _ :: _, [] => Or.inr rfl
  | x :: xs, y :: ys => by
    simp only [keyLe]
    rcases Nat.lt_trichotomy x y with h | h | h
    · left; simp [h]
    · subst h
      simp only [Nat.lt_irrefl, if_false]
      exact keyLe_total xs ys
    · right; simp [h]

theorem keyLe_trans : ∀ a b c : Str,
    keyLe a b = true → keyLe b c = true → keyLe a c = true
  | [], _, _, _, _ => rfl
  | x :: xs, [], _, hab, _ => by simp [keyLe] at hab
  | _ :: _, _ :: _, [], _, hbc => by simp [keyLe] at hbc
  | x :: xs, y :: ys, z :: zs, hab, hbc => by
    simp only [keyLe] at hab hbc ⊢
    by_cases hxz : x < z
    · simp [hxz]
    · by_cases hzx : z < x
      · exfalso
        by_cases hxy : x < y
        · by_cases hyz : y < z
          · omega
          · by_cases hzy : z < y
            · simp [hyz, hzy] at hbc
            · omega
        · by_cases hyx : y < x
          · simp [hxy, hyx] at hab
          · by_cases hyz : y < z
            · omega
            · by_cases hzy : z < y
              · simp [hyz, hzy] at hbc
              · omega
      · have hxz' : x = z := by omega
        simp only [hxz, hzx, if_false]
        by_cases hxy : x < y
        · exfalso
          by_cases hyz : y < z
          · omega
          · by_cases hzy : z < y
            · simp [hyz, hzy] at hbc
            · omega
        · by_cases hyx : y < x
          · simp [hxy, hyx] at hab
          · have hxy' : x = y := by omega
            have hyz : ¬ y < z := by omega
            have hzy : ¬ z < y := by omega
            simp only [hxy, hyx, if_false] at hab
            simp only [hyz, hzy, if_false] at hbc
            exact keyLe_trans xs ys zs hab hbc

instance : IsTotal GitTreeLeaf leafR := ⟨fun a b => keyLe_total _ _⟩

instance : IsTrans GitTreeLeaf leafR := ⟨fun a b c => keyLe_trans _ _ _⟩

/-!  C1. -/

/-- C1: disambiguation of the candidate set never happens in the code.  On a
repository where HEAD resolves to exactly one candidate — which the claim says
must be accepted and returned — object_find instead fails: the source tests
the local variable sha before binding it (sha_list holds the candidates), so
Python raises UnboundLocalError on every call that reaches the test, and
neither the UnknownRef nor the AmbiguousRef path can run either. -/
theorem object_find_unbound_despite_unique_candidate :
    object_resolve fsOneCand (chrs ("HEAD"))
        = .ok (some [some (chrs ("1111111111111111111111111111111111111111"))])
      ∧ object_find fsOneCand (chrs ("HEAD")) none true = .error .unboundLocal :=
  ⟨by decide, by decide⟩

/-!  C3. -/

/-- C3, counterexample: for a file foo.c and a tree foo the claim puts the
tree foo first in the serialized payload; the code orders by keys foo.c
against foo/ and the byte of the dot (46) is below the slash (47), so the
file foo.c comes first and the tree foo second. -/
theorem tree_order_fooc_before_tree_foo :
    ((tree_serialize ⟨[leafTreeFoo, leafFileFooC]⟩).1.items.map (fun l => l.path))
        = [chrs ("foo.c"), chrs ("foo")]
      ∧ ((tree_serialize ⟨[leafTreeFoo, leafFileFooC]⟩).1.items.map (fun l => l.path))
        ≠ [chrs ("foo"), chrs ("foo.c")]
      ∧ (tree_serialize ⟨[leafTreeFoo, leafFileFooC]⟩).2
        = serLeaves [leafFileFooC, leafTreeFoo] :=
  ⟨by decide, by decide, by decide⟩

/-- C3, amended: serialization orders entries ascending by the sort key (path
for modes beginning "10", path ++ "/" otherwise) while keeping them a
permutation of the input; a file foo precedes a tree foo (foo before foo/),
and a file foo.c precedes a tree foo (foo.c before foo/). -/
theorem tree_serialize_sort_order :
    (∀ t : GitTree, List.Sorted leafR (tree_serialize t).1.items)
      ∧ (∀ t : GitTree, List.Perm (tree_serialize t).1.items t.items)
      ∧ (tree_serialize ⟨[leafTreeFoo, leafFileFoo]⟩).1.items
          = [leafFileFoo, leafTreeFoo]
      ∧ (tree_serialize ⟨[leafTreeFoo, leafFileFooC]⟩).1.items
          = [leafFileFooC, leafTreeFoo] := by
  refine ⟨fun t => ?_, fun t => ?_, by decide, by decide⟩
  · exact List.sorted_insertionSort leafR t.items
  · exact List.perm_insertionSort leafR t.items

/-!  C4. -/

/-- C4, counterexample: the identifier named by the claim is not the hash of
the claimed payload.  The SHA-1 of the framed form blob 4 NUL hi LF LF is not
ce013625030ba8dba906f756967f9e9ca394464a (that string is the identifier of
blob 6 NUL hello LF), and hash-object on the four bytes accordingly does not
yield it. -/
theorem hash_blob_hi_not_ce013625 :
    sha1hex (chrs ("blob 4") ++ [0, 104, 105, 10, 10])
        ≠ chrs ("ce013625030ba8dba906f756967f9e9ca394464a")
      ∧ ((hash_object ⟨[[]], []⟩ (chrs ("blob")) true [104, 105, 10, 10]).toOption.map
          (fun r => r.1))
        ≠ some (chrs ("ce013625030ba8dba906f756967f9e9ca394464a")) :=
  ⟨by decide, by decide⟩

/-- C4, amended: hash-object with kind blob and write enabled on the four
bytes hi LF LF hashes the framed form blob 4 NUL hi LF LF to
e720fc73eef757535e84b0487eddf260ffc5fa1f and creates the object file under
objects/e7/. -/
theorem hash_blob_hi_yields_e720fc73 :
    sha1hex (chrs ("blob 4") ++ [0, 104, 105, 10, 10])
        = chrs ("e720fc73eef757535e84b0487eddf260ffc5fa1f")
      ∧ ((hash_object ⟨[[]], []⟩ (chrs ("blob")) true [104, 105, 10, 10]).toOption.map
          (fun r => r.1))
        = some (chrs ("e720fc73eef757535e84b0487eddf260ffc5fa1f"))
      ∧ ((hash_object ⟨[[]], []⟩ (chrs ("blob")) true [104, 105, 10, 10]).toOption.map
          (fun r => r.2.map (fun fsr =>
            (isDir fsr (chrs ("objects/e7")),
             isFile fsr (chrs ("objects/e7/20fc73eef757535e84b0487eddf260ffc5fa1f"))))))
        = some (some (true, true)) :=
  ⟨by decide, by decide, by decide⟩

/-!  C8. -/

/-- C8: creating the git structure at a fresh path writes HEAD with exactly
the indirect reference to refs/heads/master, creates the branches, objects,
refs/tags and refs/heads directories, and writes a config whose core section
sets repositoryformatversion 0, filemode false and bare false. -/
theorem repo_creation_layout :
    ((create_git_structure ⟨[], []⟩).toOption.map (fun fsr => fileGet fsr (chrs ("HEAD"))))
        = some (some (chrs ("ref: refs/heads/master") ++ [10]))
      ∧ ((create_git_structure ⟨[], []⟩).toOption.map (fun fsr =>
            (isDir fsr (chrs ("branches")) && isDir fsr (chrs ("objects"))
              && isDir fsr (chrs ("refs/tags")) && isDir fsr (chrs ("refs/heads")))))
        = some true
      ∧ ((create_git_structure ⟨[], []⟩).toOption.map (fun fsr => fileGet fsr (chrs ("config"))))
        = some (some
            (chrs ("[core]\nrepositoryformatversion = 0\nfilemode = false\nbare = false\n\n")))
      ∧ configWrite repo_default_config
        = chrs ("[core]\nrepositoryformatversion = 0\nfilemode = false\nbare = false\n\n") :=
  ⟨by decide, by decide, by decide, by decide⟩

/-!  C5. -/

/-- C5, counterexample: with the whole fan-out directory objects/ce absent,
object_read does not return absent: repo_file returns None (its parent
repo_dir found nothing and mkdir is off), and os.path.isfile(None) raises
TypeError. -/
theorem object_read_missing_fanout_raises :
    object_read ⟨[[]], []⟩ (chrs ("ce013625030ba8dba906f756967f9e9ca394464a"))
      = .error .typeError :=
  by decide

/-- C5, amended: object_read returns absent (None) when the object file is
missing but its fan-out directory objects/&lt;id[0:2]&gt; exists; when the fan-out
directory itself is absent, repo_file produces no path and object_read raises
TypeError instead of returning absent. -/
theorem object_read_absent_behaviour :
    (∀ (fs : FS) (sha : Str),
        isDir fs (pjoin [chrs ("objects"), sha.take 2]) = true →
        fileGet fs (pjoin [chrs ("objects"), sha.take 2, sha.drop 2]) = none →
        object_read fs sha = .ok none)
      ∧ (∀ (fs : FS) (sha : Str),
        isDir fs (pjoin [chrs ("objects"), sha.take 2]) = false →
        isFile fs (pjoin [chrs ("objects"), sha.take 2]) = false →
        object_read fs sha = .error .typeError) := by
  constructor
  · intro fs sha h1 h2
    simp only [object_read, repo_file, repo_dir, List.dropLast, h1, if_true, h2]
  · intro fs sha h1 h2
    simp only [object_read, repo_file, repo_dir, List.dropLast, h1, h2, if_false,
      Bool.false_eq_true]

/-- C5, witness for the amended theorem at concrete inputs: an empty fan-out
directory gives absent, a missing one gives TypeError. -/
theorem object_read_absent_witness :
    (isDir ⟨[[], chrs ("objects"), chrs ("objects/ce")], []⟩
        (pjoin [chrs ("objects"), (chrs ("ce013625030ba8dba906f756967f9e9ca394464a")).take 2])
        = true)
      ∧ object_read ⟨[[], chrs ("objects"), chrs ("objects/ce")], []⟩
          (chrs ("ce013625030ba8dba906f756967f9e9ca394464a")) = .ok none
      ∧ object_read ⟨[[]], []⟩ (chrs ("e720fc73eef757535e84b0487eddf260ffc5fa1f"))
          = .error .typeError :=
  ⟨by decide,
   object_read_absent_behaviour.1 ⟨[[], chrs ("objects"), chrs ("objects/ce")], []⟩
     (chrs ("ce013625030ba8dba906f756967f9e9ca394464a")) (by decide) (by decide),
   object_read_absent_behaviour.2 ⟨[[]], []⟩
     (chrs ("e720fc73eef757535e84b0487eddf260ffc5fa1f")) (by decide) (by decide)⟩

/-!  C6. -/

/-- C6, counterexample: with following disabled a kind mismatch is not fatal.
On a store holding one blob, asking the follow loop for a tree with follow
off returns the silent absent result None instead of failing. -/
theorem follow_disabled_mismatch_not_fatal :
    object_find_follow 1 fsBlobStore shaBlob (chrs ("tree")) false = .ok none :=
  by decide

/-- C6, amended: in the kind-following loop (the code after candidate
disambiguation, itself unreachable today because object_find raises
UnboundLocalError first), a kind mismatch with follow disabled returns the
absent result None rather than raising. -/
theorem follow_disabled_mismatch_returns_none (fuel : Nat) (fs : FS) (sha fmt : Str)
    (obj : GitObj) (hread : object_read fs sha = .ok (some obj))
    (hfmt : objFmt obj ≠ fmt) :
    object_find_follow (fuel + 1) fs sha fmt false = .ok none := by
  simp only [object_find_follow, hread, hfmt, if_false, Bool.not_false, if_true,
    Bool.false_eq_true, ite_false, ite_true, not_false_iff]

/-- C6, witness: the amended theorem applied to the concrete one-blob store
with expected kind tree. -/
theorem follow_disabled_mismatch_witness :
    object_read fsBlobStore shaBlob = .ok (some (GitObj.blob []))
      ∧ objFmt (GitObj.blob []) ≠ chrs ("tree")
      ∧ object_find_follow 1 fsBlobStore shaBlob (chrs ("tree")) false = .ok none :=
  ⟨by decide, by decide,
   follow_disabled_mismatch_returns_none 0 fsBlobStore shaBlob (chrs ("tree"))
     (GitObj.blob []) (by decide) (by decide)⟩

/-!  C7: behaviour of ref_resolve, one lemma per branch, then the claim. -/

theorem pjoin_single (c : Str) : pjoin [c] = c := rfl

theorem ref_resolve_missing (fs : FS) (r : Str) (f : Nat) (hg : isDir fs [] = true)
    (h : fileGet fs r = none) : ref_resolve (f + 1) fs r = .ok none := by
  simp only [ref_resolve, repo_file, repo_dir, List.dropLast, pjoin, hg, if_true, h]

theorem ref_resolve_indirect (fs : FS) (r c : Str) (f : Nat) (hg : isDir fs [] = true)
    (h : fileGet fs r = some c) (hpre : c.dropLast.take 5 = chrs ("ref: ")) :
    ref_resolve (f + 1) fs r = ref_resolve f fs (c.dropLast.drop 5) := by
  simp only [ref_resolve, repo_file, repo_dir, List.dropLast, pjoin, hg, if_true, h, hpre,
    if_pos rfl]

theorem ref_resolve_direct (fs : FS) (r c0 : Str) (f : Nat) (hg : isDir fs [] = true)
    (h : fileGet fs r = some (c0 ++ [10])) (hpre : c0.take 5 ≠ chrs ("ref: ")) :
    ref_resolve (f + 1) fs r = .ok (some c0) := by
  have hdl : (c0 ++ [10]).dropLast = c0 := by
    simp
  simp only [ref_resolve, repo_file, repo_dir, List.dropLast, pjoin, hg, if_true, h, hdl,
    hpre, if_false, ite_false]

theorem ref_resolve_chain (fs : FS) (hg : isDir fs [] = true) :
    ∀ (n : Nat) (r : Str) (f : Nat), RefChain fs n r → n < f →
      ref_resolve f fs r = .ok none := by
  intro n
  induction n with
  | zero =>
    intro r f hc hf
    obtain ⟨g, rfl⟩ : ∃ g, f = g + 1 := ⟨f - 1, by omega⟩
    exact ref_resolve_missing fs r g hg hc
  | succ m ih =>
    intro r f hc hf
    obtain ⟨g, rfl⟩ : ∃ g, f = g + 1 := ⟨f - 1, by omega⟩
    obtain ⟨t, hget, htail⟩ := hc
    have hdl : (chrs ("ref: ") ++ t ++ [10]).dropLast = chrs ("ref: ") ++ t := by
      simp
    have hpre : (chrs ("ref: ") ++ t ++ [10]).dropLast.take 5 = chrs ("ref: ") := by
      rw [hdl]; exact List.take_left' rfl
    have hdrop : (chrs ("ref: ") ++ t ++ [10]).dropLast.drop 5 = t := by
      rw [hdl]; exact List.drop_left' rfl
    rw [ref_resolve_indirect fs r _ g hg hget hpre, hdrop]
    exact ih t g htail (by omega)

/-- C7: ref_resolve reads gitdir/p when it is a file and returns absent (None)
otherwise; content beginning (after the trailing-character trim) with the five
bytes ref-colon-space recurses on the named target; other content is returned
with the trailing newline removed; and a broken indirection chain whose
terminal file is missing resolves to absent without an error, for any fuel
covering the chain. -/
theorem ref_resolve_spec :
    (∀ (fs : FS) (r : Str) (f : Nat), isDir fs [] = true → fileGet fs r = none →
        ref_resolve (f + 1) fs r = .ok none)
      ∧ (∀ (fs : FS) (r c : Str) (f : Nat), isDir fs [] = true →
          fileGet fs r = some c → c.dropLast.take 5 = chrs ("ref: ") →
          ref_resolve (f + 1) fs r = ref_resolve f fs (c.dropLast.drop 5))
      ∧ (∀ (fs : FS) (r c0 : Str) (f : Nat), isDir fs [] = true →
          fileGet fs r = some (c0 ++ [10]) → c0.take 5 ≠ chrs ("ref: ") →
          ref_resolve (f + 1) fs r = .ok (some c0))
      ∧ (∀ (fs : FS) (n : Nat) (r : Str) (f : Nat), isDir fs [] = true →
          RefChain fs n r → n < f → ref_resolve f fs r = .ok none) :=
  ⟨ref_resolve_missing, ref_resolve_indirect, ref_resolve_direct,
   fun fs n r f hg hc hf => ref_resolve_chain fs hg n r f hc hf⟩

/-- C7, witness: the four branches exercised on concrete repositories — a
missing ref, an indirection step, a direct reference, and the broken chain
HEAD to a missing refs/heads/master. -/
theorem ref_resolve_spec_witness :
    ref_resolve 1 fsChainHead (chrs ("refs/heads/master")) = .ok none
      ∧ ref_resolve 2 fsChainHead (chrs ("HEAD"))
          = ref_resolve 1 fsChainHead (chrs ("refs/heads/master"))
      ∧ ref_resolve 1 fsOneCand (chrs ("refs/heads/master"))
          = .ok (some (chrs ("1111111111111111111111111111111111111111")))
      ∧ ref_resolve 2 fsChainHead (chrs ("HEAD")) = .ok none :=
  ⟨ref_resolve_spec.1 fsChainHead (chrs ("refs/heads/master")) 0 (by decide) (by decide),
   by
     have h := ref_resolve_spec.2.1 fsChainHead (chrs ("HEAD"))
       (chrs ("ref: refs/heads/master") ++ [10]) 1 (by decide) (by decide) (by decide)
     simpa using h,
   by
     have h := ref_resolve_spec.2.2.1 fsOneCand (chrs ("refs/heads/master"))
       (chrs ("1111111111111111111111111111111111111111")) 0 (by decide) (by decide)
       (by decide)
     simpa using h,
   ref_resolve_spec.2.2.2 fsChainHead 1 (chrs ("HEAD")) 2 (by decide)
     ⟨chrs ("refs/heads/master"), by decide,
      by show fileGet fsChainHead (chrs ("refs/heads/master")) = none; decide⟩ (by omega)⟩

/-!  C9: each assert of the index reader is fatal, one lemma per assert. -/

theorem index_bad_magic (raw : Str) (h : raw.take 4 ≠ chrs ("DIRC")) :
    index_read_raw raw = .error .assertFail := by
  have h12 : (raw.take 12).take 4 = raw.take 4 := by
    rw [List.take_take]; norm_num
  simp only [index_read_raw, h12, h, ite_true, ne_eq, not_false_iff, if_pos]

theorem index_bad_version (raw : Str) (h4 : raw.take 4 = chrs ("DIRC"))
    (hv : beInt (sliceN (raw.take 12) 4 8) ≠ 2) :
    index_read_raw raw = .error .assertFail := by
  have h12 : (raw.take 12).take 4 = raw.take 4 := by
    rw [List.take_take]; norm_num
  simp only [index_read_raw, h12, h4, hv, ne_eq, not_true, ite_false, not_false_iff,
    ite_true, if_pos]

theorem entry_nonzero_reserved (content : Str) (idx : Nat)
    (h : beInt (sliceN content (idx + 24) (idx + 26)) ≠ 0) :
    parseEntry content idx = .error .assertFail := by
  simp only [parseEntry, h, ne_eq, not_false_iff, ite_true, if_pos]

theorem entry_bad_mode_type (content : Str) (idx : Nat)
    (h0 : beInt (sliceN content (idx + 24) (idx + 26)) = 0)
    (h : ¬ (beInt (sliceN content (idx + 26) (idx + 28)) >>> 12 = 8
          ∨ beInt (sliceN content (idx + 26) (idx + 28)) >>> 12 = 10
          ∨ beInt (sliceN content (idx + 26) (idx + 28)) >>> 12 = 14)) :
    parseEntry content idx = .error .assertFail := by
  simp only [parseEntry, h0, h, ne_eq, not_true, ite_false, not_false_iff, ite_true, if_pos]

theorem entry_extended_flag (content : Str) (idx : Nat)
    (h0 : beInt (sliceN content (idx + 24) (idx + 26)) = 0)
    (h1 : beInt (sliceN content (idx + 26) (idx + 28)) >>> 12 = 8
        ∨ beInt (sliceN content (idx + 26) (idx + 28)) >>> 12 = 10
        ∨ beInt (sliceN content (idx + 26) (idx + 28)) >>> 12 = 14)
    (h : Nat.land (beInt (sliceN content (idx + 60) (idx + 62))) 16384 ≠ 0) :
    parseEntry content idx = .error .assertFail := by
  simp only [parseEntry, h0, h1, h, ne_eq, not_true, ite_false, not_false_iff, ite_true,
    not_not, if_pos]

theorem entry_missing_nul (content : Str) (idx : Nat) (b : Nat)
    (h0 : beInt (sliceN content (idx + 24) (idx + 26)) = 0)
    (h1 : beInt (sliceN content (idx + 26) (idx + 28)) >>> 12 = 8
        ∨ beInt (sliceN content (idx + 26) (idx + 28)) >>> 12 = 10
        ∨ beInt (sliceN content (idx + 26) (idx + 28)) >>> 12 = 14)
    (h2 : Nat.land (beInt (sliceN content (idx + 60) (idx + 62))) 16384 = 0)
    (hlen : Nat.land (beInt (sliceN content (idx + 60) (idx + 62))) 4095 < 4095)
    (hget : pyget content
        ((idx + 62 + Nat.land (beInt (sliceN content (idx + 60) (idx + 62))) 4095 : Nat)
          : Int) = some b)
    (hb : b ≠ 0) :
    parseEntry content idx = .error .assertFail := by
  simp only [parseEntry, h0, h1, h2, hlen, hget, hb, ne_eq, not_true, ite_false,
    not_false_iff, ite_true, not_not, if_pos]

/-- C9: the index reader is fatal on each malformation the claim lists: a
magic other than DIRC, a version other than 2, nonzero reserved bytes in an
entry, a set extended flag, a mode type outside the three legal values, and a
missing NUL terminator after a short name (all modelled as the assertFail
outcome that Python's assert raises). -/
theorem index_read_malformations_fatal :
    (∀ raw : Str, raw.take 4 ≠ chrs ("DIRC") → index_read_raw raw = .error .assertFail)
      ∧ (∀ raw : Str, raw.take 4 = chrs ("DIRC") →
          beInt (sliceN (raw.take 12) 4 8) ≠ 2 → index_read_raw raw = .error .assertFail)
      ∧ (∀ (content : Str) (idx : Nat),
          beInt (sliceN content (idx + 24) (idx + 26)) ≠ 0 →
          parseEntry content idx = .error .assertFail)
      ∧ (∀ (content : Str) (idx : Nat),
          beInt (sliceN content (idx + 24) (idx + 26)) = 0 →
          ¬ (beInt (sliceN content (idx + 26) (idx + 28)) >>> 12 = 8
            ∨ beInt (sliceN content (idx + 26) (idx + 28)) >>> 12 = 10
            ∨ beInt (sliceN content (idx + 26) (idx + 28)) >>> 12 = 14) →
          parseEntry content idx = .error .assertFail)
      ∧ (∀ (content : Str) (idx : Nat),
          beInt (sliceN content (idx + 24) (idx + 26)) = 0 →
          (beInt (sliceN content (idx + 26) (idx + 28)) >>> 12 = 8
            ∨ beInt (sliceN content (idx + 26) (idx + 28)) >>> 12 = 10
            ∨ beInt (sliceN content (idx + 26) (idx + 28)) >>> 12 = 14) →
          Nat.land (beInt (sliceN content (idx + 60) (idx + 62))) 16384 ≠ 0 →
          parseEntry content idx = .error .assertFail)
      ∧ (∀ (content : Str) (idx b : Nat),
          beInt (sliceN content (idx + 24) (idx + 26)) = 0 →
          (beInt (sliceN content (idx + 26) (idx + 28)) >>> 12 = 8
            ∨ beInt (sliceN content (idx + 26) (idx + 28)) >>> 12 = 10
            ∨ beInt (sliceN content (idx + 26) (idx + 28)) >>> 12 = 14) →
          Nat.land (beInt (sliceN content (idx + 60) (idx + 62))) 16384 = 0 →
          Nat.land (beInt (sliceN content (idx + 60) (idx + 62))) 4095 < 4095 →
          pyget content
            ((idx + 62 + Nat.land (beInt (sliceN content (idx + 60) (idx + 62))) 4095 : Nat)
              : Int) = some b →
          b ≠ 0 → parseEntry content idx = .error .assertFail) :=
  ⟨index_bad_magic, index_bad_version, entry_nonzero_reserved, entry_bad_mode_type,
   entry_extended_flag, entry_missing_nul⟩

/-- C9, witness: each malformation on a concrete byte string. -/
theorem index_read_malformations_witness :
    index_read_raw (chrs ("XXXX") ++ [0, 0, 0, 2, 0, 0, 0, 0]) = .error .assertFail
      ∧ index_read_raw (chrs ("DIRC") ++ [0, 0, 0, 3, 0, 0, 0, 0]) = .error .assertFail
      ∧ parseEntry (List.replicate 24 0 ++ [0, 1]) 0 = .error .assertFail
      ∧ parseEntry (List.replicate 24 0 ++ [0, 0, 0, 16]) 0 = .error .assertFail
      ∧ parseEntry (List.replicate 24 0 ++ [0, 0, 128, 0] ++ List.replicate 32 0
          ++ [64, 0]) 0 = .error .assertFail
      ∧ parseEntry (List.replicate 24 0 ++ [0, 0, 128, 0] ++ List.replicate 32 0
          ++ [0, 1] ++ [97, 97]) 0 = .error .assertFail :=
  ⟨index_read_malformations_fatal.1 _ (by decide),
   index_read_malformations_fatal.2.1 _ (by decide) (by decide),
   index_read_malformations_fatal.2.2.1 _ 0 (by decide),
   index_read_malformations_fatal.2.2.2.1 _ 0 (by decide) (by decide),
   index_read_malformations_fatal.2.2.2.2.1 _ 0 (by decide) (by decide) (by decide),
   index_read_malformations_fatal.2.2.2.2.2 _ 0 97 (by decide) (by decide) (by decide)
     (by decide) (by decide) (by decide)⟩

/-!  C10: tree_serialize sorts its argument in place and emits the sorted
concatenation. -/

theorem leafBytes_ok (l : GitTreeLeaf) (h : wfLeaf l = true) :
    leafBytes l = .ok (l.mode ++ [32] ++ pathBytes l ++ [0] ++ shaBytes l) := by
  have h' : (utf8Encode l.path).isOk ∧ (hexToNat l.sha).isSome
      ∧ (hexToNat l.sha).getD 0 < 256 ^ 20 := by
    simpa [wfLeaf] using h
  obtain ⟨h1, h2, h3⟩ := h'
  unfold leafBytes pathBytes shaBytes
  cases he : utf8Encode l.path with
  | error e => rw [he] at h1; simp [Except.isOk, Except.toBool] at h1
  | ok pb =>
    cases hs : hexToNat l.sha with
    | none => rw [hs] at h2; simp at h2
    | some n =>
      rw [hs] at h3
      simp only [Option.getD_some] at h3
      have h3' : n < 1461501637330902918203684832716283019655932542976 := by
        simpa using h3
      unfold toBytesBE
      simp [h3']

theorem serLeaves_ok (its : List GitTreeLeaf) (h : ∀ l ∈ its, wfLeaf l = true) :
    serLeaves its
      = .ok ((its.map (fun l => l.mode ++ [32] ++ pathBytes l ++ [0] ++ shaBytes l)).flatten)
    := by
  induction its with
  | nil => rfl
  | cons x rest ih =>
    have hx : wfLeaf x = true := h x (List.mem_cons_self x rest)
    have hrest : ∀ l ∈ rest, wfLeaf l = true := fun l hl => h l (List.mem_cons_of_mem x hl)
    simp only [serLeaves, leafBytes_ok x hx, ih hrest, List.map_cons, List.flatten_cons]

/-- C10: serializing a tree mutates its argument: the items list is replaced
by its stable sort under the tree sort key (ascending, a permutation of the
original, the prior order forgotten), and the emitted bytes are the
concatenation of mode SP path NUL raw20 over exactly those sorted entries. -/
theorem tree_serialize_mutates_and_emits (t : GitTree)
    (hwf : ∀ l ∈ t.items, wfLeaf l = true) :
    (tree_serialize t).1.items = pysort t.items
      ∧ List.Sorted leafR (tree_serialize t).1.items
      ∧ List.Perm (tree_serialize t).1.items t.items
      ∧ (tree_serialize t).2
        = .ok (((pysort t.items).map
            (fun l => l.mode ++ [32] ++ pathBytes l ++ [0] ++ shaBytes l)).flatten) := by
  refine ⟨rfl, List.sorted_insertionSort leafR t.items,
    List.perm_insertionSort leafR t.items, ?_⟩
  have hmem : ∀ l ∈ pysort t.items, wfLeaf l = true := by
    intro l hl
    exact hwf l ((List.perm_insertionSort leafR t.items).mem_iff.mp hl)
  exact serLeaves_ok (pysort t.items) hmem

/-- C10, witness: the mutation and emission at a concrete two-leaf tree. -/
theorem tree_serialize_mutates_witness :
    (∀ l ∈ (GitTree.mk [leafTreeFoo, leafFileFoo]).items, wfLeaf l = true)
      ∧ ((tree_serialize ⟨[leafTreeFoo, leafFileFoo]⟩).1.items
            = pysort [leafTreeFoo, leafFileFoo]
          ∧ List.Sorted leafR (tree_serialize ⟨[leafTreeFoo, leafFileFoo]⟩).1.items
          ∧ List.Perm (tree_serialize ⟨[leafTreeFoo, leafFileFoo]⟩).1.items
              [leafTreeFoo, leafFileFoo]
          ∧ (tree_serialize ⟨[leafTreeFoo, leafFileFoo]⟩).2
            = .ok (((pysort [leafTreeFoo, leafFileFoo]).map
                (fun l => l.mode ++ [32] ++ pathBytes l ++ [0] ++ shaBytes l)).flatten)) :=
  ⟨by decide, tree_serialize_mutates_and_emits ⟨[leafTreeFoo, leafFileFoo]⟩ (by decide)⟩

/-!  C2: lemmas on the continuation-line escape. -/

theorem besc_append (a b : Str) : besc (a ++ b) = besc a ++ besc b := by
  induction a with
  | nil => rfl
  | cons x xs ih =>
    simp only [List.cons_append, besc, List.append_eq, ih, List.append_assoc]

theorem besc_ne_nil (x : Nat) (xs : Str) : besc (x :: xs) ≠ [] := by
  simp only [besc]
  rcases Decidable.em (x = 10) with h | h <;> simp [h]

theorem breplace_besc (v : Str) : breplace (besc v) = v := by
  induction v with
  | nil => rfl
  | cons b r ih =>
    rcases Decidable.em (b = 10) with hb | hb
    · subst hb
      simp only [besc, if_pos rfl, List.cons_append, List.nil_append]
      show breplace (10 :: 32 :: besc r) = 10 :: r
      rw [show breplace (10 :: 32 :: besc r) = 10 :: breplace (besc r) from by
        simp [breplace], ih]
    · simp only [besc, if_neg hb, List.cons_append, List.nil_append]
      cases hr : besc r with
      | nil =>
        cases r with
        | nil => simp [breplace]
        | cons y ys => exact absurd hr (besc_ne_nil y ys)
      | cons c cs =>
        have hnot : ¬ (b = 10 ∧ c = 32) := fun hh => hb hh.1
        rw [show breplace (b :: c :: cs) = b :: breplace (c :: cs) from by
          simp [breplace, hnot]]
        rw [← hr, ih]

theorem ten_not_mem_besc (v : Str) (h : 10 ∉ v) : 10 ∉ besc v := by
  induction v with
  | nil => simp [besc]
  | cons b r ih =>
    have hb : b ≠ 10 := fun hh => h (hh ▸ List.mem_cons_self b r)
    have hr : 10 ∉ r := fun hh => h (List.mem_cons_of_mem b hh)
    simp only [besc, if_neg hb, List.cons_append, List.nil_append, List.mem_cons]
    rintro (rfl | hmem)
    · exact hb rfl
    · exact ih hr hmem

/-!  C2: lemmas on the Python find, get and slice helpers. -/

theorem bfind_none_of_not_mem (c : Nat) (l : Str) (h : c ∉ l) : bfind c l = none := by
  induction l with
  | nil => rfl
  | cons x xs ih =>
    have hx : x ≠ c := fun hh => h (hh ▸ List.mem_cons_self x xs)
    have hxs : c ∉ xs := fun hh => h (List.mem_cons_of_mem x hh)
    simp [bfind, hx, ih hxs]

theorem bfind_append_not_mem (c : Nat) (l1 l2 : Str) (h : c ∉ l1) :
    bfind c (l1 ++ l2) = (bfind c l2).map (· + l1.length) := by
  induction l1 with
  | nil => simp
  | cons x xs ih =>
    have hx : x ≠ c := fun hh => h (hh ▸ List.mem_cons_self x xs)
    have hxs : c ∉ xs := fun hh => h (List.mem_cons_of_mem x hh)
    simp only [List.cons_append, bfind, if_neg hx, List.append_eq, ih hxs,
      List.length_cons]
    cases bfind c l2 with
    | none => rfl
    | some i =>
      simp only [Option.map]
      congr 1

theorem bfind_cons_self (c : Nat) (l : Str) : bfind c (c :: l) = some 0 := by
  simp [bfind]

theorem pyfind_found (raw : Str) (c s : Nat) (l1 l2 : Str)
    (hd : raw.drop s = l1 ++ c :: l2) (hc : c ∉ l1) :
    pyfind raw c s = ((s + l1.length : Nat) : Int) := by
  unfold pyfind
  rw [hd, bfind_append_not_mem c l1 (c :: l2) hc, bfind_cons_self]
  simp

theorem pyfind_none (raw : Str) (c s : Nat) (h : c ∉ raw.drop s) :
    pyfind raw c s = -1 := by
  unfold pyfind
  rw [bfind_none_of_not_mem c _ h]

theorem pyfind_lower (raw : Str) (c s : Nat) (l1 l2 : Str)
    (hd : raw.drop s = l1 ++ l2) (hc : c ∉ l1) :
    pyfind raw c s = -1 ∨ ((s + l1.length : Nat) : Int) ≤ pyfind raw c s := by
  unfold pyfind
  rw [hd, bfind_append_not_mem c l1 l2 hc]
  cases bfind c l2 with
  | none => exact Or.inl rfl
  | some i =>
    right
    simp only [Option.map]
    push_cast
    omega

theorem pyget_found (raw : Str) (s k b : Nat) (l : Str) (hd : raw.drop s = l)
    (hg : l[k]? = some b) : pyget raw ((s + k : Nat) : Int) = some b := by
  unfold pyget
  rw [if_pos (by positivity)]
  have h2 : raw[s + k]? = some b := by
    rw [← List.getElem?_drop, hd, hg]
  simpa using h2

theorem pyslice_nat (raw : Str) (a b : Nat) :
    pyslice raw (a : Int) (b : Int) = sliceN raw a b := by
  simp only [pyslice, sliceN]
  have ha : ¬ ((a : Int) < 0) := by omega
  have hb : ¬ ((b : Int) < 0) := by omega
  rw [if_neg ha, if_neg hb]
  have h1 : (min (b : Int) ((raw.length : Nat) : Int)).toNat = min b raw.length := by
    rcases Nat.le_total b raw.length with h | h
    · rw [min_eq_left (by exact_mod_cast h), min_eq_left h]; simp
    · rw [min_eq_right (by exact_mod_cast h), min_eq_right h]; simp
  have h2 : (min (a : Int) ((raw.length : Nat) : Int)).toNat = min a raw.length := by
    rcases Nat.le_total a raw.length with h | h
    · rw [min_eq_left (by exact_mod_cast h), min_eq_left h]; simp
    · rw [min_eq_right (by exact_mod_cast h), min_eq_right h]; simp
  rw [h1, h2]
  have t1 : raw.take (min b raw.length) = raw.take b := by
    rcases Nat.le_total b raw.length with h | h
    · rw [min_eq_left h]
    · rw [min_eq_right h, List.take_length, List.take_of_length_le h]
  rw [t1]
  rcases Nat.le_total a raw.length with h | h
  · rw [min_eq_left h]
  · have hlen : (raw.take b).length ≤ raw.length := by
      rw [List.length_take]; omega
    rw [min_eq_right h, List.drop_eq_nil_of_le hlen,
      List.drop_eq_nil_of_le (le_trans hlen h)]

theorem mem_split_first (c : Nat) (v : Str) (h : c ∈ v) :
    ∃ v1 v2, v = v1 ++ c :: v2 ∧ c ∉ v1 := by
  induction v with
  | nil => cases h
  | cons x xs ih =>
    rcases Decidable.em (x = c) with rfl | hx
    · exact ⟨[], xs, rfl, by simp⟩
    · have hxs : c ∈ xs := by
        rcases List.mem_cons.mp h with h1 | h1
        · exact absurd h1.symm hx
        · exact h1
      obtain ⟨v1, v2, heq, hnot⟩ := ih hxs
      refine ⟨x :: v1, v2, by rw [heq]; rfl, ?_⟩
      intro hh
      rcases List.mem_cons.mp hh with h2 | h2
      · exact hx h2.symm
      · exact hnot h2

theorem sliceN_middle (pre mid suf : Str) :
    sliceN (pre ++ mid ++ suf) pre.length (pre.length + mid.length) = mid := by
  unfold sliceN
  rw [show pre ++ mid ++ suf = (pre ++ mid) ++ suf from by simp,
    List.take_left' (by simp), List.drop_left]

theorem besc_cons_ten (v : Str) : besc (10 :: v) = 10 :: 32 :: besc v := by
  simp [besc]

theorem besc_cons_sp (v : Str) : besc (32 :: v) = 32 :: besc v := by
  simp [besc]

theorem findValEnd_ok : ∀ (fuel : Nat) (raw v : Str) (e b : Nat) (t : Str),
    raw.drop (e + 1) = besc v ++ [10] ++ (b :: t) → b ≠ 32 → v.count 10 < fuel →
    findValEnd raw fuel (e : Int) = .ok ((e + 1 + (besc v).length : Nat) : Int) := by
  intro fuel
  induction fuel with
  | zero => intro raw v e b t _ _ hf; omega
  | succ f ih =>
    intro raw v e b t hd hb hf
    have htn : ((e : Int) + 1).toNat = e + 1 := by omega
    rcases Decidable.em (10 ∈ v) with hmem | hmem
    · -- the value still holds an escaped newline: one more loop iteration
      obtain ⟨v1, v2, rfl, hnot1⟩ := mem_split_first 10 v hmem
      have hbesc : besc (v1 ++ 10 :: v2) = besc v1 ++ 10 :: 32 :: besc v2 := by
        rw [besc_append, besc_cons_ten]
      have hd' : raw.drop (e + 1) = besc v1 ++ 10 :: (32 :: besc v2 ++ [10] ++ b :: t) := by
        rw [hd, hbesc]; simp
      have hfind : pyfind raw 10 (e + 1) = ((e + 1 + (besc v1).length : Nat) : Int) :=
        pyfind_found raw 10 (e + 1) (besc v1) _ hd' (ten_not_mem_besc v1 hnot1)
      have hget : pyget raw (((e + 1) + ((besc v1).length + 1) : Nat) : Int) = some 32 := by
        refine pyget_found raw (e + 1) ((besc v1).length + 1) 32 _ hd' ?_
        rw [show besc v1 ++ 10 :: (32 :: besc v2 ++ [10] ++ b :: t)
            = (besc v1 ++ [10]) ++ (32 :: (besc v2 ++ [10] ++ b :: t)) from by simp]
        rw [List.getElem?_append_right (by simp)]
        simp
      have hdrop2 : raw.drop ((e + 1 + (besc v1).length) + 1)
          = besc (32 :: v2) ++ [10] ++ b :: t := by
        have h1 : raw.drop ((e + 1 + (besc v1).length) + 1)
            = (raw.drop (e + 1)).drop ((besc v1).length + 1) := by
          rw [List.drop_drop]
          simp only [Nat.add_assoc]
        rw [h1, hd', besc_cons_sp]
        rw [show besc v1 ++ 10 :: (32 :: besc v2 ++ [10] ++ b :: t)
            = (besc v1 ++ [10]) ++ (32 :: (besc v2 ++ [10] ++ b :: t)) from by simp]
        rw [List.drop_left' (by simp)]
        simp
      have hv1 : v1.count 10 = 0 := List.count_eq_zero.mpr hnot1
      have hcount : (32 :: v2).count 10 < f := by
        rw [List.count_append] at hf
        simp [List.count_cons, hv1] at hf ⊢
        omega
      have hih := ih raw (32 :: v2) (e + 1 + (besc v1).length) b t hdrop2 hb hcount
      simp only [findValEnd, htn, hfind]
      rw [show ((e + 1 + (besc v1).length : Nat) : Int) + 1
          = (((e + 1) + ((besc v1).length + 1) : Nat) : Int) from by push_cast; ring]
      rw [hget]
      simp only [ne_eq, not_true, ite_false, if_neg, not_not]
      rw [hih]
      congr 1
      have hl : (besc (v1 ++ 10 :: v2)).length
          = (besc v1).length + 2 + (besc v2).length := by
        rw [hbesc]; simp only [List.length_append, List.length_cons]; omega
      have hl2 : (besc (32 :: v2)).length = 1 + (besc v2).length := by
        rw [besc_cons_sp]; simp only [List.length_cons]; omega
      rw [hl, hl2]
      push_cast
      omega
    · -- no newline inside the escaped value: this iteration finds the line end
      have hnotb : 10 ∉ besc v := ten_not_mem_besc v hmem
      have hfind : pyfind raw 10 (e + 1) = ((e + 1 + (besc v).length : Nat) : Int) :=
        pyfind_found raw 10 (e + 1) (besc v) (b :: t) (by simpa using hd) hnotb
      have hget : pyget raw (((e + 1) + ((besc v).length + 1) : Nat) : Int) = some b := by
        refine pyget_found raw (e + 1) ((besc v).length + 1) b _ hd ?_
        rw [show besc v ++ [10] ++ b :: t = (besc v ++ [10]) ++ b :: t from by simp]
        rw [List.getElem?_append_right (by simp)]
        simp
      simp only [findValEnd, htn, hfind]
      rw [show ((e + 1 + (besc v).length : Nat) : Int) + 1
          = (((e + 1) + ((besc v).length + 1) : Nat) : Int) from by push_cast; ring]
      rw [hget]
      simp only [hb, ne_eq, not_false_iff, if_pos]

theorem besc_len_ge (v : Str) : v.length ≤ (besc v).length := by
  induction v with
  | nil => simp [besc]
  | cons b r ih =>
    simp only [besc, List.length_cons, List.length_append]
    rcases Decidable.em (b = 10) with h | h <;> simp [h] <;> omega

theorem serLine_length (k v : Str) :
    (serLine k v).length = k.length + 1 + (besc v).length + 1 := by
  simp only [serLine, List.length_append, List.length_cons, List.length_nil]

theorem kvlm_parse_key_step (f : Nat) (pre k v : Str) (b : Nat) (t : Str) (dct : Kvlm)
    (hk1 : k ≠ []) (hk2 : 32 ∉ k) (hk3 : 10 ∉ k) (hb : b ≠ 32) :
    kvlm_parse (f + 1) (pre ++ serLine k v ++ (b :: t)) pre.length dct
      = kvlm_parse f (pre ++ serLine k v ++ (b :: t))
          (pre.length + (serLine k v).length) (dctUpdate dct (some k) v) := by
  have hshape : pre ++ serLine k v ++ (b :: t)
      = pre ++ (k ++ (32 :: (besc v ++ [10] ++ (b :: t)))) := by
    simp [serLine]
  have hdrop : (pre ++ serLine k v ++ (b :: t)).drop pre.length
      = k ++ 32 :: (besc v ++ [10] ++ (b :: t)) := by
    rw [hshape, List.drop_left]
  have hspc : pyfind (pre ++ serLine k v ++ (b :: t)) 32 pre.length
      = ((pre.length + k.length : Nat) : Int) :=
    pyfind_found _ 32 pre.length k _ hdrop hk2
  have hnl : pyfind (pre ++ serLine k v ++ (b :: t)) 10 pre.length = -1
      ∨ ((pre.length + (k.length + 1) : Nat) : Int)
        ≤ pyfind (pre ++ serLine k v ++ (b :: t)) 10 pre.length := by
    have h := pyfind_lower (pre ++ serLine k v ++ (b :: t)) 10 pre.length (k ++ [32])
      (besc v ++ [10] ++ (b :: t)) (by rw [hdrop]; simp)
      (by
        intro hmem
        rcases List.mem_append.mp hmem with h | h
        · exact hk3 h
        · simp at h)
    simpa using h
  have hcond : ¬ (pyfind (pre ++ serLine k v ++ (b :: t)) 32 pre.length < 0
      ∨ (0 ≤ pyfind (pre ++ serLine k v ++ (b :: t)) 10 pre.length
        ∧ pyfind (pre ++ serLine k v ++ (b :: t)) 10 pre.length
          < pyfind (pre ++ serLine k v ++ (b :: t)) 32 pre.length)) := by
    rw [hspc]
    rintro (h | ⟨h1, h2⟩)
    · omega
    · rcases hnl with h3 | h3 <;> omega
  have hdrop2 : (pre ++ serLine k v ++ (b :: t)).drop (pre.length + k.length + 1)
      = besc v ++ [10] ++ (b :: t) := by
    rw [show pre ++ serLine k v ++ (b :: t)
        = (pre ++ k ++ [32]) ++ (besc v ++ [10] ++ (b :: t)) from by simp [serLine]]
    exact List.drop_left' (by simp [Nat.add_assoc])
  have hcount : v.count 10 < (pre ++ serLine k v ++ (b :: t)).length + 1 := by
    have h1 : v.count 10 ≤ v.length := List.count_le_length 10 v
    have h2 := besc_len_ge v
    have h3 : (pre ++ serLine k v ++ (b :: t)).length
        = pre.length + (k.length + 1 + (besc v).length + 1) + (t.length + 1) := by
      simp [serLine_length, Nat.add_assoc]
    omega
  have hfve : findValEnd (pre ++ serLine k v ++ (b :: t))
      ((pre ++ serLine k v ++ (b :: t)).length + 1)
      ((pre.length + k.length : Nat) : Int)
      = .ok ((pre.length + k.length + 1 + (besc v).length : Nat) : Int) :=
    findValEnd_ok _ _ v (pre.length + k.length) b t hdrop2 hb hcount
  have hslice : sliceN (pre ++ serLine k v ++ (b :: t)) pre.length (pre.length + k.length)
      = k := by
    have := sliceN_middle pre k (32 :: (besc v ++ [10] ++ (b :: t)))
    rw [hshape]
    simpa using this
  have hslice2 : sliceN (pre ++ serLine k v ++ (b :: t)) (pre.length + k.length + 1)
      (pre.length + k.length + 1 + (besc v).length) = besc v := by
    have h := sliceN_middle (pre ++ k ++ [32]) (besc v) ([10] ++ (b :: t))
    have hlen : (pre ++ k ++ [32]).length = pre.length + k.length + 1 := by
      simp [Nat.add_assoc]
    rw [hlen] at h
    rw [show pre ++ serLine k v ++ (b :: t)
        = (pre ++ k ++ [32]) ++ besc v ++ ([10] ++ (b :: t)) from by simp [serLine]]
    rw [show (pre ++ k ++ [32]) ++ besc v ++ ([10] ++ (b :: t))
        = pre ++ k ++ [32] ++ besc v ++ ([10] ++ (b :: t)) from by simp]
    rw [show pre ++ k ++ [32] ++ besc v ++ ([10] ++ (b :: t))
        = (pre ++ k ++ [32]) ++ besc v ++ ([10] ++ (b :: t)) from by simp]
    exact h
  have hc1 : ((pre.length + k.length : Nat) : Int) + 1
      = ((pre.length + k.length + 1 : Nat) : Int) := by push_cast; ring
  have hc2 : ((((pre.length + k.length + 1 + (besc v).length : Nat)) : Int) + 1).toNat
      = pre.length + (serLine k v).length := by rw [serLine_length]; omega
  simp only [kvlm_parse]
  rw [if_neg hcond]
  simp only [hspc, hfve, hc1, pyslice_nat, hslice, hslice2, breplace_besc, hc2]

theorem kvlm_parse_base (f : Nat) (pre msg : Str) (dct : Kvlm) :
    kvlm_parse (f + 1) (pre ++ [10] ++ msg) pre.length dct
      = .ok (dctSet dct none (PyVal.s msg)) := by
  have hdrop : (pre ++ [10] ++ msg).drop pre.length = 10 :: msg := by
    rw [show pre ++ [10] ++ msg = pre ++ (10 :: msg) from by simp, List.drop_left]
  have hnl : pyfind (pre ++ [10] ++ msg) 10 pre.length = ((pre.length : Nat) : Int) := by
    have := pyfind_found (pre ++ [10] ++ msg) 10 pre.length [] msg (by simpa using hdrop)
      (by simp)
    simpa using this
  have hspc : pyfind (pre ++ [10] ++ msg) 32 pre.length = -1
      ∨ ((pre.length + 1 : Nat) : Int) ≤ pyfind (pre ++ [10] ++ msg) 32 pre.length := by
    have := pyfind_lower (pre ++ [10] ++ msg) 32 pre.length [10] msg (by simpa using hdrop)
      (by simp)
    simpa using this
  have hcond : pyfind (pre ++ [10] ++ msg) 32 pre.length < 0
      ∨ (0 ≤ pyfind (pre ++ [10] ++ msg) 10 pre.length
        ∧ pyfind (pre ++ [10] ++ msg) 10 pre.length
          < pyfind (pre ++ [10] ++ msg) 32 pre.length) := by
    rcases hspc with h | h
    · exact Or.inl (by omega)
    · right
      rw [hnl]
      constructor
      · omega
      · omega
  have hslice : pyslice (pre ++ [10] ++ msg) ((pre.length : Int) + 1)
      ((pre ++ [10] ++ msg).length : Int) = msg := by
    have h := sliceN_middle (pre ++ [10]) msg []
    simp only [List.append_nil] at h
    have e1 : ((pre.length : Int) + 1) = (((pre ++ [10]).length : Nat) : Int) := by
      have h10 : (pre ++ [10]).length = pre.length + 1 := by simp
      rw [h10]
      push_cast
      ring
    have e2 : (((pre ++ [10] ++ msg).length : Nat) : Int)
        = (((pre ++ [10]).length + msg.length : Nat) : Int) := by
      congr 1
      simp
      omega
    rw [e1, e2, pyslice_nat]
    exact h
  simp only [kvlm_parse]
  rw [if_pos hcond, if_pos (by rw [hnl]), hslice]

/-!  C2: how the parser's dict operations act on fresh and just-appended
keys. -/

theorem dctUpdate_fresh (d : Kvlm) (k : Option Str) (v : Str)
    (h : k ∉ d.map Prod.fst) : dctUpdate d k v = d ++ [(k, PyVal.s v)] := by
  induction d with
  | nil => rfl
  | cons p rest ih =>
    have hp : p.1 ≠ k := fun hh => h (by simp [← hh])
    have hrest : k ∉ rest.map Prod.fst := fun hh => h (by simp [hh])
    cases p with
    | mk pk pv =>
      simp only [dctUpdate, if_neg (by simpa using hp), List.cons_append, ih hrest]

theorem dctUpdate_snoc_s (d : Kvlm) (k : Option Str) (v0 v : Str)
    (h : k ∉ d.map Prod.fst) :
    dctUpdate (d ++ [(k, PyVal.s v0)]) k v = d ++ [(k, PyVal.l [v0, v])] := by
  induction d with
  | nil => simp [dctUpdate]
  | cons p rest ih =>
    have hp : p.1 ≠ k := fun hh => h (by simp [← hh])
    have hrest : k ∉ rest.map Prod.fst := fun hh => h (by simp [hh])
    cases p with
    | mk pk pv =>
      simp only [List.cons_append, dctUpdate, if_neg (by simpa using hp), List.append_eq,
        ih hrest]

theorem dctUpdate_snoc_l (d : Kvlm) (k : Option Str) (vs : List Str) (v : Str)
    (h : k ∉ d.map Prod.fst) :
    dctUpdate (d ++ [(k, PyVal.l vs)]) k v = d ++ [(k, PyVal.l (vs ++ [v]))] := by
  induction d with
  | nil => simp [dctUpdate]
  | cons p rest ih =>
    have hp : p.1 ≠ k := fun hh => h (by simp [← hh])
    have hrest : k ∉ rest.map Prod.fst := fun hh => h (by simp [hh])
    cases p with
    | mk pk pv =>
      simp only [List.cons_append, dctUpdate, if_neg (by simpa using hp), List.append_eq,
        ih hrest]

theorem dctSet_fresh (d : Kvlm) (k : Option Str) (w : PyVal)
    (h : k ∉ d.map Prod.fst) : dctSet d k w = d ++ [(k, w)] := by
  induction d with
  | nil => rfl
  | cons p rest ih =>
    have hp : p.1 ≠ k := fun hh => h (by simp [← hh])
    have hrest : k ∉ rest.map Prod.fst := fun hh => h (by simp [hh])
    cases p with
    | mk pk pv =>
      simp only [dctSet, if_neg (by simpa using hp), List.cons_append, ih hrest]

theorem dctLookup_append_last (d : Kvlm) (k : Option Str) (w : PyVal)
    (h : k ∉ d.map Prod.fst) : dctLookup (d ++ [(k, w)]) k = some w := by
  induction d with
  | nil => simp [dctLookup]
  | cons p rest ih =>
    have hp : p.1 ≠ k := fun hh => h (by simp [← hh])
    have hrest : k ∉ rest.map Prod.fst := fun hh => h (by simp [hh])
    cases p with
    | mk pk pv =>
      simp only [List.cons_append, dctLookup, if_neg (by simpa using hp), List.append_eq,
        ih hrest]

theorem fold_group (k : Str) (vs : List Str) (d : Kvlm) (acc : List Str)
    (h : (some k) ∉ d.map Prod.fst) :
    (vs.map (fun v => (k, v))).foldl (fun dd p => dctUpdate dd (some p.1) p.2)
        (d ++ [(some k, PyVal.l acc)])
      = d ++ [(some k, PyVal.l (acc ++ vs))] := by
  induction vs generalizing acc with
  | nil => simp
  | cons v vr ih =>
    simp only [List.map_cons, List.foldl_cons]
    rw [dctUpdate_snoc_l d (some k) acc v h, ih (acc ++ [v])]
    simp

theorem fold_fieldLines : ∀ (kv d : Kvlm),
    (∀ p ∈ kv, WfPair p) → ((kv.map Prod.fst).Nodup) →
    (∀ p ∈ kv, p.1 ∉ d.map Prod.fst) →
    (fieldLines kv).foldl (fun dd p => dctUpdate dd (some p.1) p.2) d = d ++ kv := by
  intro kv
  induction kv with
  | nil => intro d _ _ _; simp [fieldLines]
  | cons p kvr ih =>
    intro d hwf hnodup hfresh
    have hwfp := hwf p (List.mem_cons_self p kvr)
    have hfp : p.1 ∉ d.map Prod.fst := hfresh p (List.mem_cons_self p kvr)
    have hwfr : ∀ q ∈ kvr, WfPair q := fun q hq => hwf q (List.mem_cons_of_mem p hq)
    have hnodr : (kvr.map Prod.fst).Nodup := (List.nodup_cons.mp (by simpa using hnodup)).2
    have hhead : p.1 ∉ kvr.map Prod.fst := (List.nodup_cons.mp (by simpa using hnodup)).1
    cases p with
    | mk pk pv =>
      cases pk with
      | none => exact absurd hwfp (by simp [WfPair])
      | some k =>
        have hfresh2 : ∀ q ∈ kvr, q.1 ∉ (d ++ [(some k, pv)]).map Prod.fst := by
          intro q hq
          simp only [List.map_append, List.mem_append]
          rintro (hh | hh)
          · exact hfresh q (List.mem_cons_of_mem _ hq) hh
          · simp only [List.map_cons, List.map_nil, List.mem_singleton] at hh
            have hq1 : q.1 ∈ kvr.map Prod.fst := List.mem_map_of_mem Prod.fst hq
            rw [hh] at hq1
            exact hhead hq1
        cases pv with
        | s v =>
          simp only [fieldLines, List.foldl_cons]
          rw [dctUpdate_fresh d (some k) v hfp]
          rw [ih (d ++ [(some k, PyVal.s v)]) hwfr hnodr (hfresh2)]
          simp
        | l vs =>
          obtain ⟨v1, v2, vr, rfl⟩ : ∃ v1 v2 vr, vs = v1 :: v2 :: vr := by
            have hwfp2 : WfKey k ∧ 2 ≤ vs.length := hwfp
            have hlen : 2 ≤ vs.length := hwfp2.2
            cases vs with
            | nil => simp at hlen
            | cons v1 vt =>
              cases vt with
              | nil => simp at hlen
              | cons v2 vr => exact ⟨v1, v2, vr, rfl⟩
          simp only [fieldLines, List.foldl_append, List.map_cons, List.foldl_cons]
          rw [dctUpdate_fresh d (some k) v1 hfp,
            dctUpdate_snoc_s d (some k) v1 v2 hfp,
            fold_group k vr d [v1, v2] hfp]
          rw [ih (d ++ [(some k, PyVal.l ([v1, v2] ++ vr))]) hwfr hnodr
            (fun q hq => by simpa using hfresh2 q hq)]
          simp

/-!  C2: the parser consumes the serialized header lines one by one. -/

theorem lines_head (q : Str × Str) (r : List (Str × Str)) (msg : Str)
    (h1 : q.1 ≠ []) (h2 : 32 ∉ q.1) :
    ∃ b t, linesBytes (q :: r) ++ [10] ++ msg = b :: t ∧ b ≠ 32 := by
  obtain ⟨c, kk, hq⟩ : ∃ c kk, q.1 = c :: kk := by
    cases hql : q.1 with
    | nil => exact absurd hql h1
    | cons c kk => exact ⟨c, kk, rfl⟩
  refine ⟨c, kk ++ [32] ++ besc q.2 ++ [10] ++ linesBytes r ++ [10] ++ msg, ?_, ?_⟩
  · simp [linesBytes, serLine, hq]
  · intro hc
    exact h2 (hq ▸ (hc ▸ List.mem_cons_self c kk))

theorem kvlm_parse_lines : ∀ (ls : List (Str × Str)) (f : Nat) (pre msg : Str) (dct : Kvlm),
    (∀ p ∈ ls, WfKey p.1) → ls.length < f →
    kvlm_parse f (pre ++ linesBytes ls ++ [10] ++ msg) pre.length dct
      = .ok (dctSet (ls.foldl (fun d p => dctUpdate d (some p.1) p.2) dct) none
          (PyVal.s msg)) := by
  intro ls
  induction ls with
  | nil =>
    intro f pre msg dct _ hf
    obtain ⟨g, rfl⟩ : ∃ g, f = g + 1 := ⟨f - 1, by omega⟩
    rw [show pre ++ linesBytes [] ++ [10] ++ msg = pre ++ [10] ++ msg from by
      simp [linesBytes]]
    rw [kvlm_parse_base g pre msg dct]
    simp
  | cons p ls ih =>
    intro f pre msg dct hwf hf
    obtain ⟨g, rfl⟩ : ∃ g, f = g + 1 := ⟨f - 1, by omega⟩
    have hwfp : WfKey p.1 := hwf p (List.mem_cons_self p ls)
    obtain ⟨hk1, hk2, hk3⟩ := hwfp
    have hwfr : ∀ q ∈ ls, WfKey q.1 := fun q hq => hwf q (List.mem_cons_of_mem p hq)
    obtain ⟨b, t, hbt, hb⟩ : ∃ b t, linesBytes ls ++ [10] ++ msg = b :: t ∧ b ≠ 32 := by
      cases ls with
      | nil => exact ⟨10, msg, by simp [linesBytes], by decide⟩
      | cons q r =>
        have hq := hwfr q (List.mem_cons_self q r)
        exact lines_head q r msg hq.1 hq.2.1
    have hshape : pre ++ linesBytes (p :: ls) ++ [10] ++ msg
        = pre ++ serLine p.1 p.2 ++ (b :: t) := by
      rw [← hbt]
      simp [linesBytes]
    rw [hshape, kvlm_parse_key_step g pre p.1 p.2 b t dct hk1 hk2 hk3 hb]
    have hpre2 : pre.length + (serLine p.1 p.2).length
        = (pre ++ serLine p.1 p.2).length := by simp
    have hshape2 : pre ++ serLine p.1 p.2 ++ (b :: t)
        = (pre ++ serLine p.1 p.2) ++ linesBytes ls ++ [10] ++ msg := by
      rw [← hbt]
      simp
    rw [hpre2, hshape2, ih g (pre ++ serLine p.1 p.2) msg
      (dctUpdate dct (some p.1) p.2) hwfr (by simpa using hf)]
    simp

/-!  C2: linking serFields to the flattened line list. -/

theorem fieldLines_append (a b : Kvlm) :
    fieldLines (a ++ b) = fieldLines a ++ fieldLines b := by
  induction a with
  | nil => rfl
  | cons p rest ih =>
    cases p with
    | mk pk pv =>
      cases pk with
      | none => simpa [fieldLines] using ih
      | some k =>
        cases pv with
        | s v => simp [fieldLines, ih]
        | l vs => simp [fieldLines, ih]

theorem serFields_eq (d : Kvlm) : serFields d = linesBytes (fieldLines d) := by
  induction d with
  | nil => rfl
  | cons p rest ih =>
    cases p with
    | mk pk pv =>
      cases pk with
      | none => simpa [serFields, fieldLines, linesBytes] using ih
      | some k =>
        cases pv with
        | s v => simp [serFields, fieldLines, linesBytes, ih]
        | l vs =>
          simp only [serFields, fieldLines, linesBytes, ih, List.map_append,
            List.map_map, List.flatten_append]
          rfl

theorem fieldLines_wf (kv : Kvlm) (hwf : ∀ p ∈ kv, WfPair p) :
    ∀ p ∈ fieldLines kv, WfKey p.1 := by
  induction kv with
  | nil => intro p hp; simp [fieldLines] at hp
  | cons q rest ih =>
    have hq := hwf q (List.mem_cons_self q rest)
    have hr : ∀ p ∈ rest, WfPair p := fun p hp => hwf p (List.mem_cons_of_mem q hp)
    intro p hp
    cases q with
    | mk qk qv =>
      cases qk with
      | none => exact absurd hq (by simp [WfPair])
      | some k =>
        have hkwf : WfKey k := by
          cases qv with
          | s v => exact hq
          | l vs =>
            have hq2 : WfKey k ∧ 2 ≤ vs.length := hq
            exact hq2.1
        cases qv with
        | s v =>
          simp only [fieldLines, List.mem_cons] at hp
          rcases hp with rfl | hp
          · exact hkwf
          · exact ih hr p hp
        | l vs =>
          simp only [fieldLines, List.mem_append] at hp
          rcases hp with hp | hp
          · obtain ⟨w, _, rfl⟩ := List.mem_map.mp hp
            exact hkwf
          · exact ih hr p hp

theorem linesBytes_len (ls : List (Str × Str)) : ls.length ≤ (linesBytes ls).length := by
  induction ls with
  | nil => simp [linesBytes]
  | cons p r ih =>
    have h := serLine_length p.1 p.2
    simp only [linesBytes, List.map_cons, List.flatten_cons, List.length_append,
      List.length_cons] at ih ⊢
    omega

/-- C2: KVLM round-trips.  Serializing a well-formed document (distinct
nonempty SP- and LF-free keys, genuine lists only for repeated keys, a byte
message slot) and parsing the bytes back returns exactly the document,
repeated keys and embedded newlines included. -/
theorem kvlm_roundtrip (x : Kvlm) (h : KvlmWF x) :
    ∃ s, kvlm_serialize x = .ok s ∧ kvlm_parse_top s = .ok x := by
  obtain ⟨kv, msg, rfl, hwf, hnodup⟩ := h
  have hnone : (none : Option Str) ∉ kv.map Prod.fst := by
    intro hmem
    obtain ⟨p, hp, hp1⟩ := List.mem_map.mp hmem
    cases p with
    | mk pk pv =>
      simp only at hp1
      subst hp1
      exact hwf _ hp
  have hser : kvlm_serialize (kv ++ [(none, PyVal.s msg)])
      = .ok (serFields (kv ++ [(none, PyVal.s msg)]) ++ [10] ++ msg) := by
    unfold kvlm_serialize
    rw [dctLookup_append_last kv none (PyVal.s msg) hnone]
  refine ⟨_, hser, ?_⟩
  have hsf : serFields (kv ++ [(none, PyVal.s msg)]) = linesBytes (fieldLines kv) := by
    rw [serFields_eq, fieldLines_append]
    simp [fieldLines]
  rw [hsf]
  unfold kvlm_parse_top
  have hfuel : (fieldLines kv).length
      < (linesBytes (fieldLines kv) ++ [10] ++ msg).length + 1 := by
    have h1 := linesBytes_len (fieldLines kv)
    simp only [List.length_append, List.length_cons, List.length_nil]
    omega
  have hmain := kvlm_parse_lines (fieldLines kv)
    ((linesBytes (fieldLines kv) ++ [10] ++ msg).length + 1) [] msg []
    (fieldLines_wf kv hwf) hfuel
  simp only [List.nil_append, List.length_nil] at hmain
  rw [hmain]
  rw [fold_fieldLines kv [] hwf hnodup (by simp)]
  rw [show ([] : Kvlm) ++ kv = kv from by simp]
  rw [dctSet_fresh kv none (PyVal.s msg) hnone]

/-- C2, witness: the round-trip at a concrete document holding a repeated
parent key and an author value with an embedded newline. -/
theorem kvlm_roundtrip_witness :
    KvlmWF kvlmSample
      ∧ ∃ s, kvlm_serialize kvlmSample = .ok s ∧ kvlm_parse_top s = .ok kvlmSample :=
  have hwf : KvlmWF kvlmSample :=
    ⟨kvlmSampleKv, kvlmSampleMsg, by decide, by decide, by decide⟩
  ⟨hwf, kvlm_roundtrip kvlmSample hwf⟩

end Guit
